import Mathlib

/-!
# Verification of the Assessment Aggregation & Academic-Year Progression Engine

A shallow embedding, in Lean 4, of the core of `app.py` from the
`final-dream-tracker` repository: the term-maxima resolver, the band
classifier, the question-set reconciler (`ensure_questions_total_marks`),
the result aggregator (`sync_assessment_totals_to_results`), the paper
template versioner (`clone_template` / `gap_template_publish`) and the
end-of-year promotion route (`admin_promote`).

Modelling conventions:
* Python floats are modelled as exact rationals (`ℚ`).  The explicit
  `round(x, 4)` / `round(x, 1)` calls of the source are modelled as exact
  rounding to the nearest multiple of `1/10000` (resp. `1/10`) using
  Mathlib's `round`.  Python's `round` resolves exact halfway ties to the
  even digit while `round` on `ℚ` rounds them up; every concrete input
  used in a counterexample or witness below keeps a distance of at least
  `2/100000` from any tie, so the two semantics agree on all of them.
* Database rows are lists of structures; a SQLAlchemy query that filters
  and orders rows is modelled as the corresponding pure list operation.
* `db.session` mutation is modelled by explicit state passing.
-/

/-- `1/10000 : ℚ`, the grid on which the source's `round(x, 4)` lands. -/
def gridUnit : ℚ := 1 / 10000

/-- Model of Python's `round(x, 4)`: round to the nearest multiple of
`1/10000` (ties rounded up, see the module comment). -/
def round4 (x : ℚ) : ℚ := (round (x * 10000) : ℤ) / 10000

/-- Model of Python's `round(x, 1)`: round to the nearest multiple of
`1/10`. -/
def round1 (x : ℚ) : ℚ := (round (x * 10) : ℤ) / 10

/-- A rational is on the 4-decimal grid: it is an integer multiple of
`1/10000`.  Stated via the normalised denominator so that it is
decidable on concrete inputs. -/
def onGrid (x : ℚ) : Prop := (x * 10000).den = 1

instance (x : ℚ) : Decidable (onGrid x) := by
  unfold onGrid; infer_instance

theorem onGrid_iff {x : ℚ} : onGrid x ↔ ∃ n : ℤ, x = (n : ℚ) / 10000 := by
  constructor
  · intro h
    refine ⟨(x * 10000).num, ?_⟩
    have hx : ((x * 10000).num : ℚ) = x * 10000 := by
      conv_rhs => rw [← Rat.num_div_den (x * 10000)]
      rw [h]; simp
    rw [hx]; field_simp
  · rintro ⟨n, rfl⟩
    have : (n : ℚ) / 10000 * 10000 = (n : ℚ) := by field_simp
    unfold onGrid; rw [this]; exact Rat.den_intCast n

theorem round4_sub_abs (x : ℚ) : |round4 x - x| ≤ 1 / 20000 := by
  have h := abs_sub_round (x * 10000)
  rw [abs_sub_comm] at h
  unfold round4
  rw [show (round (x * 10000) : ℚ) / 10000 - x = ((round (x * 10000) : ℚ) - x * 10000) / 10000
    by ring]
  rw [abs_div, show |(10000 : ℚ)| = 10000 by norm_num]
  rw [div_le_div_iff₀ (by norm_num) (by norm_num : (0:ℚ) < 20000)]
  nlinarith [h]

theorem round4_le (x : ℚ) : round4 x ≤ x + 1 / 20000 := by
  have h := round4_sub_abs x
  have := abs_le.mp h
  linarith [this.2]

theorem round4_ge (x : ℚ) : x - 1 / 20000 ≤ round4 x := by
  have h := round4_sub_abs x
  have := abs_le.mp h
  linarith [(abs_le.mp h).1]

theorem onGrid_round4 (x : ℚ) : onGrid (round4 x) := by
  rw [onGrid_iff]
  exact ⟨round (x * 10000), rfl⟩

theorem round4_eq_of_onGrid {x : ℚ} (h : onGrid x) : round4 x = x := by
  rcases onGrid_iff.mp h with ⟨n, rfl⟩
  unfold round4
  have h1 : (n : ℚ) / 10000 * 10000 = (n : ℚ) := by field_simp
  rw [h1, round_intCast]

theorem onGrid_add {x y : ℚ} (hx : onGrid x) (hy : onGrid y) : onGrid (x + y) := by
  rcases onGrid_iff.mp hx with ⟨n, rfl⟩
  rcases onGrid_iff.mp hy with ⟨m, rfl⟩
  rw [onGrid_iff]
  exact ⟨n + m, by push_cast; ring⟩

theorem onGrid_neg {x : ℚ} (hx : onGrid x) : onGrid (-x) := by
  rcases onGrid_iff.mp hx with ⟨n, rfl⟩
  rw [onGrid_iff]
  exact ⟨-n, by push_cast; ring⟩

theorem onGrid_sub {x y : ℚ} (hx : onGrid x) (hy : onGrid y) : onGrid (x - y) := by
  have := onGrid_add hx (onGrid_neg hy)
  simpa [sub_eq_add_neg] using this

theorem onGrid_intCast (n : ℤ) : onGrid (n : ℚ) := by
  rw [onGrid_iff]
  exact ⟨n * 10000, by push_cast; ring⟩

theorem onGrid_one : onGrid (1 : ℚ) := by
  simpa using onGrid_intCast 1

theorem onGrid_zero : onGrid (0 : ℚ) := by
  simpa using onGrid_intCast 0

/-- A positive grid value is at least one grid step. -/
theorem onGrid_pos_ge {x : ℚ} (hx : onGrid x) (h : 0 < x) : 1 / 10000 ≤ x := by
  rcases onGrid_iff.mp hx with ⟨n, rfl⟩
  have hn : (0 : ℚ) < (n : ℚ) := by
    have := (lt_div_iff₀ (by norm_num : (0:ℚ) < 10000)).mp h
    linarith
  have hn1 : (1 : ℤ) ≤ n := by exact_mod_cast hn
  have hq : (1 : ℚ) ≤ (n : ℚ) := by exact_mod_cast hn1
  gcongr

/-- Rounding a nonnegative value strictly below half a grid step gives 0. -/
theorem round4_eq_zero {x : ℚ} (h0 : 0 ≤ x) (h : x < 1 / 20000) : round4 x = 0 := by
  unfold round4
  have hr : round (x * 10000) = 0 := by
    rw [round_eq, Int.floor_eq_zero_iff, Set.mem_Ico]
    constructor
    · nlinarith
    · nlinarith
  rw [hr]; norm_num

/-- Rounding `m - δ` for on-grid `m` and a deficit of at most half a grid
step returns `m` itself (the tie `δ = 1/20000` rounds up, back to `m`). -/
theorem round4_sub_small {m δ : ℚ} (hm : onGrid m) (h0 : 0 < δ) (h : δ ≤ 1 / 20000) :
    round4 (m - δ) = m := by
  rcases onGrid_iff.mp hm with ⟨n, rfl⟩
  unfold round4
  have h1 : ((n : ℚ) / 10000 - δ) * 10000 = (n : ℚ) - δ * 10000 := by
    field_simp
    ring
  rw [h1]
  have h2 : round ((n : ℚ) - δ * 10000) = n := by
    rw [round_eq]
    apply Int.floor_eq_iff.mpr
    constructor
    · nlinarith
    · push_cast
      nlinarith
  rw [h2]

/-- Strict lower gap: the rounded value is never a full half-step below. -/
theorem round4_gap_lt (x : ℚ) : x - round4 x < 1 / 20000 := by
  have h1 : x * 10000 - 1 / 2 < (round (x * 10000) : ℚ) := by
    have h := round_eq (x * 10000)
    have hf := Int.sub_one_lt_floor (x * 10000 + 1 / 2)
    rw [← h] at hf
    linarith
  have e : (round (x * 10000) : ℚ) / 10000 * 10000 = (round (x * 10000) : ℚ) := by
    field_simp
  unfold round4
  linarith [h1, e]

/-! ## QuestionSetReconciler: `ensure_questions_total_marks` (app.py 789-861)

The list models the assessment's `AssessmentQuestion` rows ordered by
`number` ascending, exactly as the source's query returns them.  Appended
questions always receive numbers strictly above the current maximum, so
the re-query before the final renumber pass returns the maintained list
unchanged; the model therefore renumbers the list directly. -/

/-- An `AssessmentQuestion` row: only `number` and `max_mark` take part in
reconciliation. -/
structure AQ where
  number : ℤ
  max_mark : ℚ
  deriving DecidableEq

/-- Python `int(x)` on a float: truncation toward zero. -/
def pyInt (x : ℚ) : ℤ := if 0 ≤ x then ⌊x⌋ else ⌈x⌉

/-- `sum(float(q.max_mark or 0.0) for q in qs)`. -/
def sumMarks (qs : List AQ) : ℚ := (qs.map AQ.max_mark).sum

/-- The `while remaining > 1.0` loop of the shortfall branch: append
whole-mark questions until at most one mark is left, then one final
question carrying any positive remainder. -/
def appendWholeMarks (last_no : ℤ) (remaining : ℚ) : List AQ :=
  if h : 1 < remaining then
    ⟨last_no + 1, 1⟩ :: appendWholeMarks (last_no + 1) (round4 (remaining - 1))
  else if 0 < remaining then [⟨last_no + 1, remaining⟩]
  else []
termination_by (⌊remaining * 10000⌋).toNat
decreasing_by
  have habs := abs_sub_round ((remaining - 1) * 10000)
  have hup : (round ((remaining - 1) * 10000) : ℚ) ≤ (remaining - 1) * 10000 + 1 / 2 := by
    have := abs_le.mp habs
    linarith [this.1]
  have hfl : remaining * 10000 - 1 < (⌊remaining * 10000⌋ : ℚ) := Int.sub_one_lt_floor _
  have hge : (10000 : ℤ) ≤ ⌊remaining * 10000⌋ := by
    apply Int.le_floor.mpr
    push_cast
    nlinarith
  have hlt : round ((remaining - 1) * 10000) < ⌊remaining * 10000⌋ - 9998 := by
    have hq : (round ((remaining - 1) * 10000) : ℚ) < (⌊remaining * 10000⌋ : ℚ) - 9998 := by
      nlinarith
    exact_mod_cast hq
  have hcast : round4 (remaining - 1) * 10000 = (round ((remaining - 1) * 10000) : ℚ) := by
    unfold round4
    field_simp
  have hfloor : ⌊round4 (remaining - 1) * 10000⌋ = round ((remaining - 1) * 10000) := by
    rw [hcast]
    exact Int.floor_intCast _
  rw [hfloor]
  omega

/-- In-place mutation of the last row (`qs[-1].max_mark = ...`). -/
def updateLast (qs : List AQ) (f : AQ → AQ) : List AQ :=
  match qs with
  | [] => []
  | [q] => [f q]
  | q :: rest => q :: updateLast rest f

/-- The tail-deletion loop of the surplus branch, walking the rows in
reverse order: delete whole rows while that does not undershoot, then
shrink exactly one boundary row.  Returns the reversed remaining rows. -/
def shrinkLoop (rev : List AQ) (running required_total : ℚ) : List AQ :=
  match rev with
  | [] => []
  | q :: rest =>
    if required_total < running then
      if required_total ≤ running - q.max_mark then
        shrinkLoop rest (round4 (running - q.max_mark)) required_total
      else
        ⟨q.number, round4 (required_total - (running - q.max_mark))⟩ :: rest
    else q :: rest

/-- `for i, q in enumerate(qs2, start=1): q.number = i`. -/
def renumberFrom (i : ℤ) : List AQ → List AQ
  | [] => []
  | q :: rest => ⟨i, q.max_mark⟩ :: renumberFrom (i + 1) rest

/-- The rows built by the empty-set branch:
`AssessmentQuestion(number=i, max_mark=1.0) for i in range(1, whole + 1)`. -/
def wholeMarkRows (n : ℕ) : List AQ :=
  (List.range n).map (fun (i : ℕ) => (⟨(i : ℤ) + 1, 1⟩ : AQ))

/-- Model of `ensure_questions_total_marks(assessment_id, required_total)`:
the new question list produced from the current (number-ordered) list. -/
def ensure_questions_total_marks (qs : List AQ) (required_total : ℚ) : List AQ :=
  if qs.isEmpty then
    let whole := pyInt required_total
    let base := wholeMarkRows whole.toNat
    let remainder := round4 (required_total - (whole : ℚ))
    if 0 < remainder then base ++ [⟨whole + 1, remainder⟩] else base
  else
    let total := sumMarks qs
    let qs1 :=
      if total < required_total then
        let remaining := round4 (required_total - total)
        if remaining ≤ 1 then
          updateLast qs (fun q => ⟨q.number, round4 (q.max_mark + remaining)⟩)
        else
          qs ++ appendWholeMarks ((qs.getLast?).elim 0 AQ.number) remaining
      else if required_total < total then
        (shrinkLoop qs.reverse total required_total).reverse
      else qs
    renumberFrom 1 qs1

/-- The expected `number` column after renumbering: `i, i+1, ...`. -/
def seqNumbers (i : ℤ) (n : ℕ) : List ℤ := (List.range n).map (fun (k : ℕ) => i + (k : ℤ))

/-- Question numbers are exactly `1..N` with no gaps. -/
def numbersSeq (qs : List AQ) : Prop := qs.map AQ.number = seqNumbers 1 qs.length

instance (qs : List AQ) : Decidable (numbersSeq qs) := by
  unfold numbersSeq; infer_instance

/-! ### Basic lemmas about the reconciler's helpers -/

theorem sumMarks_nil : sumMarks [] = 0 := rfl

theorem sumMarks_cons (q : AQ) (l : List AQ) : sumMarks (q :: l) = q.max_mark + sumMarks l := by
  unfold sumMarks
  simp

theorem sumMarks_append (l1 l2 : List AQ) :
    sumMarks (l1 ++ l2) = sumMarks l1 + sumMarks l2 := by
  unfold sumMarks
  simp

theorem sumMarks_concat (l : List AQ) (q : AQ) :
    sumMarks (l ++ [q]) = sumMarks l + q.max_mark := by
  rw [sumMarks_append, sumMarks_cons, sumMarks_nil]
  ring

theorem sumMarks_nonneg {l : List AQ} (h : ∀ q ∈ l, 0 ≤ q.max_mark) : 0 ≤ sumMarks l := by
  induction l with
  | nil => simp [sumMarks_nil]
  | cons a t ih =>
    rw [sumMarks_cons]
    have ha := h a (by simp)
    have ht := ih (fun q hq => h q (by simp [hq]))
    linarith

theorem onGrid_sumMarks {l : List AQ} (h : ∀ q ∈ l, onGrid q.max_mark) :
    onGrid (sumMarks l) := by
  induction l with
  | nil => simpa [sumMarks_nil] using onGrid_zero
  | cons a t ih =>
    rw [sumMarks_cons]
    exact onGrid_add (h a (by simp)) (ih (fun q hq => h q (by simp [hq])))

theorem seqNumbers_succ (i : ℤ) (n : ℕ) : seqNumbers i (n + 1) = i :: seqNumbers (i + 1) n := by
  unfold seqNumbers
  rw [List.range_succ_eq_map, List.map_cons, List.map_map]
  simp only [Nat.cast_zero, add_zero]
  congr 1
  apply List.map_congr_left
  intro k _
  simp only [Function.comp_apply]
  push_cast
  ring

theorem renumberFrom_map_number (i : ℤ) (qs : List AQ) :
    (renumberFrom i qs).map AQ.number = seqNumbers i qs.length := by
  induction qs generalizing i with
  | nil => simp [renumberFrom, seqNumbers]
  | cons a t ih =>
    rw [renumberFrom, List.length_cons, seqNumbers_succ]
    simp only [List.map_cons, ih]

theorem renumberFrom_length (i : ℤ) (qs : List AQ) :
    (renumberFrom i qs).length = qs.length := by
  induction qs generalizing i with
  | nil => rfl
  | cons a t ih => simp [renumberFrom, ih]

theorem renumberFrom_numbersSeq (qs : List AQ) : numbersSeq (renumberFrom 1 qs) := by
  unfold numbersSeq
  rw [renumberFrom_map_number, renumberFrom_length]

theorem renumberFrom_map_mark (i : ℤ) (qs : List AQ) :
    (renumberFrom i qs).map AQ.max_mark = qs.map AQ.max_mark := by
  induction qs generalizing i with
  | nil => simp [renumberFrom]
  | cons a t ih => simp [renumberFrom, ih]

theorem sumMarks_renumberFrom (i : ℤ) (qs : List AQ) :
    sumMarks (renumberFrom i qs) = sumMarks qs := by
  unfold sumMarks
  rw [renumberFrom_map_mark]

theorem renumberFrom_eq_self (qs : List AQ) (h : numbersSeq qs) : renumberFrom 1 qs = qs := by
  unfold numbersSeq at h
  suffices H : ∀ (l : List AQ) (i : ℤ), l.map AQ.number = seqNumbers i l.length →
      renumberFrom i l = l by
    exact H qs 1 h
  intro l
  induction l with
  | nil => intro i _; rfl
  | cons a t ih =>
    intro i hmap
    rw [List.length_cons, seqNumbers_succ] at hmap
    simp only [List.map_cons, List.cons.injEq] at hmap
    rw [renumberFrom, ih (i + 1) hmap.2]
    have h1 : a.number = i := hmap.1
    cases a
    simp_all

theorem updateLast_concat (ys : List AQ) (q : AQ) (f : AQ → AQ) :
    updateLast (ys ++ [q]) f = ys ++ [f q] := by
  induction ys with
  | nil => rfl
  | cons a t ih =>
    cases t with
    | nil => rfl
    | cons b u =>
      have hstep : updateLast ((a :: b :: u) ++ [q]) f = a :: updateLast ((b :: u) ++ [q]) f := rfl
      rw [hstep, ih]
      rfl

theorem round4_nonneg {x : ℚ} (h : 0 ≤ x) : 0 ≤ round4 x := by
  unfold round4
  have : (0 : ℤ) ≤ round (x * 10000) := by
    rw [round_eq]
    apply Int.le_floor.mpr
    push_cast
    nlinarith
  positivity

theorem round4_nonpos {x : ℚ} (h : x ≤ 0) : round4 x ≤ 0 := by
  unfold round4
  have hle : round (x * 10000) ≤ 0 := by
    rw [round_eq]
    have h1 : x * 10000 + 1 / 2 ≤ 1 / 2 + 0 := by nlinarith
    have h2 := Int.floor_mono h1
    have h3 : ⌊(1 : ℚ) / 2 + 0⌋ = 0 := by norm_num
    omega
  have : (round (x * 10000) : ℚ) ≤ 0 := by exact_mod_cast hle
  linarith [div_nonpos_of_nonpos_of_nonneg this (by norm_num : (0:ℚ) ≤ 10000)]

/-- If `x ≥ 1/20000`, rounding cannot give 0 (the tie rounds up). -/
theorem round4_pos_of_ge_half {x : ℚ} (h : 1 / 20000 ≤ x) : 0 < round4 x := by
  unfold round4
  have : (1 : ℤ) ≤ round (x * 10000) := by
    rw [round_eq]
    apply Int.le_floor.mpr
    push_cast
    nlinarith
  have hq : (1 : ℚ) ≤ (round (x * 10000) : ℚ) := by exact_mod_cast this
  positivity

/-- Sum, shape and grid facts about the shortfall append loop. -/
theorem appendWholeMarks_post (n : ℤ) (r : ℚ) (hg : onGrid r) (hr : 0 < r) :
    sumMarks (appendWholeMarks n r) = r ∧
    (∀ q ∈ appendWholeMarks n r, onGrid q.max_mark ∧ 0 < q.max_mark) ∧
    (∃ ys q, appendWholeMarks n r = ys ++ [q] ∧ onGrid q.max_mark ∧ 0 < q.max_mark) := by
  induction n, r using appendWholeMarks.induct with
  | case1 n r h ih =>
    have hg1 : onGrid (r - 1) := onGrid_sub hg onGrid_one
    have hrw : round4 (r - 1) = r - 1 := round4_eq_of_onGrid hg1
    have hpos : 0 < r - 1 := by linarith
    rw [hrw] at ih
    obtain ⟨hsum, hall, ys, q, heq, hq1, hq2⟩ := ih hg1 hpos
    rw [appendWholeMarks, dif_pos h, hrw]
    refine ⟨?_, ?_, ?_⟩
    · rw [sumMarks_cons, hsum]
      ring
    · intro q2 hq2m
      rcases List.mem_cons.mp hq2m with h1 | h2
      · rw [h1]; exact ⟨onGrid_one, by norm_num⟩
      · exact hall q2 h2
    · refine ⟨⟨n + 1, 1⟩ :: ys, q, ?_, hq1, hq2⟩
      rw [heq]
      rfl
  | case2 n r h1 h2 =>
    rw [appendWholeMarks, dif_neg h1, if_pos h2]
    refine ⟨?_, ?_, [], ⟨n + 1, r⟩, rfl, hg, hr⟩
    · rw [sumMarks_cons, sumMarks_nil]; ring
    · intro q hq
      rcases List.mem_singleton.mp hq with h
      rw [h]
      exact ⟨hg, hr⟩
  | case3 n r h1 h2 =>
    exfalso
    exact h2 hr

/-- Sum, strict-gap and boundary-row facts about the surplus shrink loop,
for on-grid marks: the rounded running total then tracks the exact tail
sum, so no rounding error accumulates across deletions. -/
theorem shrinkLoop_post (rev : List AQ) (T : ℚ) (hT : 0 ≤ T) :
    ∀ running, (∀ q ∈ rev, onGrid q.max_mark) → running = sumMarks rev → T ≤ running →
    |sumMarks (shrinkLoop rev running T) - T| ≤ 1 / 20000 ∧
    (sumMarks (shrinkLoop rev running T) < T →
       T - sumMarks (shrinkLoop rev running T) < 1 / 20000 ∧
       ∃ q r2, shrinkLoop rev running T = q :: r2 ∧ onGrid q.max_mark) ∧
    (T < sumMarks (shrinkLoop rev running T) →
       ∃ q r2, shrinkLoop rev running T = q :: r2 ∧ onGrid q.max_mark ∧
         1 / 10000 ≤ q.max_mark) := by
  induction rev with
  | nil =>
    intro running _ hrun hle
    rw [sumMarks_nil] at hrun
    subst hrun
    have hT0 : T = 0 := le_antisymm hle hT
    subst hT0
    simp [shrinkLoop, sumMarks_nil]
  | cons q rest ih =>
    intro running hgrid hrun hle
    have hq : onGrid q.max_mark := hgrid q (by simp)
    have hrest : ∀ p ∈ rest, onGrid p.max_mark := fun p hp => hgrid p (by simp [hp])
    have hsumrest : onGrid (sumMarks rest) := onGrid_sumMarks hrest
    rw [sumMarks_cons] at hrun
    by_cases hlt : T < running
    · by_cases hdel : T ≤ running - q.max_mark
      · have hdiff : running - q.max_mark = sumMarks rest := by linarith [hrun]
        have hround : round4 (running - q.max_mark) = sumMarks rest := by
          rw [hdiff]
          exact round4_eq_of_onGrid hsumrest
        have hstep : shrinkLoop (q :: rest) running T =
            shrinkLoop rest (round4 (running - q.max_mark)) T := by
          rw [shrinkLoop, if_pos hlt, if_pos hdel]
        rw [hstep, hround]
        exact ih (sumMarks rest) hrest rfl (by rw [← hdiff]; exact hdel)
      · push_neg at hdel
        have hstep : shrinkLoop (q :: rest) running T =
            ⟨q.number, round4 (T - (running - q.max_mark))⟩ :: rest := by
          rw [shrinkLoop, if_pos hlt, if_neg (not_le.mpr hdel)]
        have hy : 0 < T - (running - q.max_mark) := by linarith
        rw [hstep, sumMarks_cons]
        simp only
        set y := T - (running - q.max_mark) with hydef
        have hsum : round4 y + sumMarks rest - T = round4 y - y := by
          rw [hydef]; rw [hrun]; ring
        refine ⟨?_, ?_, ?_⟩
        · rw [hsum]
          exact round4_sub_abs y
        · intro hlt2
          refine ⟨?_, ⟨q.number, round4 y⟩, rest, rfl, onGrid_round4 y⟩
          have := round4_gap_lt y
          linarith [hsum]
        · intro hgt2
          refine ⟨⟨q.number, round4 y⟩, rest, rfl, onGrid_round4 y, ?_⟩
          have hpos : 0 < round4 y := by linarith [hsum]
          exact onGrid_pos_ge (onGrid_round4 y) hpos
    · push_neg at hlt
      have heq : running = T := le_antisymm hlt hle
      have hstep : shrinkLoop (q :: rest) running T = q :: rest := by
        rw [shrinkLoop, if_neg (not_lt.mpr hlt)]
      rw [hstep, sumMarks_cons, ← hrun, heq]
      refine ⟨by simp, fun h => absurd h (lt_irrefl T), fun h => absurd h (lt_irrefl T)⟩

/-! ### Branch characterisations of `ensure_questions_total_marks` -/

theorem ensure_empty_eq (T : ℚ) :
    ensure_questions_total_marks [] T =
      (if 0 < round4 (T - (pyInt T : ℚ))
       then wholeMarkRows (pyInt T).toNat ++ [⟨pyInt T + 1, round4 (T - (pyInt T : ℚ))⟩]
       else wholeMarkRows (pyInt T).toNat) := by
  rfl

theorem ensure_equal_eq (qs : List AQ) (T : ℚ) (h : qs ≠ []) (heq : sumMarks qs = T) :
    ensure_questions_total_marks qs T = renumberFrom 1 qs := by
  obtain ⟨a, t, rfl⟩ := List.exists_cons_of_ne_nil h
  show renumberFrom 1 (if sumMarks (a :: t) < T then _ else if T < sumMarks (a :: t) then _
    else (a :: t)) = _
  rw [if_neg (by rw [heq]; exact lt_irrefl T), if_neg (by rw [heq]; exact lt_irrefl T)]

theorem ensure_absorb_eq (qs : List AQ) (T : ℚ) (h : qs ≠ []) (hlt : sumMarks qs < T)
    (hrem : round4 (T - sumMarks qs) ≤ 1) :
    ensure_questions_total_marks qs T =
      renumberFrom 1 (updateLast qs
        (fun q => ⟨q.number, round4 (q.max_mark + round4 (T - sumMarks qs))⟩)) := by
  obtain ⟨a, t, rfl⟩ := List.exists_cons_of_ne_nil h
  show renumberFrom 1 (if sumMarks (a :: t) < T then
      (if round4 (T - sumMarks (a :: t)) ≤ 1 then _ else _) else _) = _
  rw [if_pos hlt, if_pos hrem]

theorem ensure_append_eq (qs : List AQ) (T : ℚ) (h : qs ≠ []) (hlt : sumMarks qs < T)
    (hrem : ¬ round4 (T - sumMarks qs) ≤ 1) :
    ensure_questions_total_marks qs T =
      renumberFrom 1 (qs ++ appendWholeMarks ((qs.getLast?).elim 0 AQ.number)
        (round4 (T - sumMarks qs))) := by
  obtain ⟨a, t, rfl⟩ := List.exists_cons_of_ne_nil h
  show renumberFrom 1 (if sumMarks (a :: t) < T then
      (if round4 (T - sumMarks (a :: t)) ≤ 1 then _ else _) else _) = _
  rw [if_pos hlt, if_neg hrem]

theorem ensure_shrink_eq (qs : List AQ) (T : ℚ) (h : qs ≠ []) (hgt : T < sumMarks qs) :
    ensure_questions_total_marks qs T =
      renumberFrom 1 ((shrinkLoop qs.reverse (sumMarks qs) T).reverse) := by
  obtain ⟨a, t, rfl⟩ := List.exists_cons_of_ne_nil h
  show renumberFrom 1 (if sumMarks (a :: t) < T then _ else if T < sumMarks (a :: t) then _
    else (a :: t)) = _
  rw [if_neg (not_lt.mpr (le_of_lt hgt)), if_pos hgt]

theorem wholeMarkRows_succ (n : ℕ) :
    wholeMarkRows (n + 1) = wholeMarkRows n ++ [⟨(n : ℤ) + 1, 1⟩] := by
  unfold wholeMarkRows
  rw [List.range_succ, List.map_append]
  rfl

theorem sumMarks_wholeMarkRows (n : ℕ) : sumMarks (wholeMarkRows n) = n := by
  induction n with
  | zero => rfl
  | succ m ih =>
    rw [wholeMarkRows_succ, sumMarks_concat, ih]
    push_cast
    ring

theorem length_wholeMarkRows (n : ℕ) : (wholeMarkRows n).length = n := by
  unfold wholeMarkRows
  simp

theorem number_wholeMarkRows (n : ℕ) :
    (wholeMarkRows n).map AQ.number = seqNumbers 1 n := by
  unfold wholeMarkRows seqNumbers
  rw [List.map_map]
  apply List.map_congr_left
  intro k _
  simp only [Function.comp_apply]
  ring

theorem mark_wholeMarkRows (n : ℕ) : ∀ q ∈ wholeMarkRows n, q.max_mark = 1 := by
  unfold wholeMarkRows
  intro q hq
  rcases List.mem_map.mp hq with ⟨i, _, rfl⟩
  rfl

theorem seqNumbers_concat (i : ℤ) (n : ℕ) :
    seqNumbers i n ++ [i + n] = seqNumbers i (n + 1) := by
  unfold seqNumbers
  rw [List.range_succ, List.map_append]
  rfl

theorem renumberFrom_append (i : ℤ) (l1 l2 : List AQ) :
    renumberFrom i (l1 ++ l2) = renumberFrom i l1 ++ renumberFrom (i + l1.length) l2 := by
  induction l1 generalizing i with
  | nil => simp [renumberFrom]
  | cons a t ih =>
    simp only [List.cons_append, renumberFrom]
    rw [show (t.append l2) = t ++ l2 from rfl, ih (i + 1)]
    have harg : i + 1 + (t.length : ℤ) = i + ((a :: t).length : ℤ) := by
      push_cast [List.length_cons]
      ring
    rw [harg]

/-- State of a question list right after a reconciliation run: numbers are
`1..N`; the sum sits within half a grid step of the target, strictly so
when below it; and whenever the sum overshot, the final row carries an
on-grid mark of at least one grid step (it was produced by rounding a
positive quantity up). -/
def ReconPost (T : ℚ) (out : List AQ) : Prop :=
  numbersSeq out ∧
  |sumMarks out - T| ≤ 1 / 20000 ∧
  (sumMarks out < T → T - sumMarks out < 1 / 20000 ∧
     (out = [] ∨ ∃ ys q, out = ys ++ [q] ∧ onGrid q.max_mark)) ∧
  (T < sumMarks out → ∃ ys q, out = ys ++ [q] ∧ onGrid q.max_mark ∧ 1 / 10000 ≤ q.max_mark)

theorem ensure_empty_post (T : ℚ) (hT : 0 ≤ T) :
    ReconPost T (ensure_questions_total_marks [] T) := by
  have hpy : pyInt T = ⌊T⌋ := by unfold pyInt; rw [if_pos hT]
  have hfl0 : (0 : ℤ) ≤ ⌊T⌋ := Int.floor_nonneg.mpr hT
  have hcast : ((⌊T⌋.toNat : ℕ) : ℤ) = ⌊T⌋ := Int.toNat_of_nonneg hfl0
  have hy0 : 0 ≤ T - (⌊T⌋ : ℚ) := by linarith [Int.floor_le T]
  rw [ensure_empty_eq, hpy]
  set n := ⌊T⌋.toNat with hn
  set y := T - ((⌊T⌋ : ℤ) : ℚ) with hy
  have hsum0 : sumMarks (wholeMarkRows n) = ((⌊T⌋ : ℤ) : ℚ) := by
    rw [sumMarks_wholeMarkRows]
    exact_mod_cast hcast
  by_cases hpos : 0 < round4 y
  · rw [if_pos hpos]
    have hsum : sumMarks (wholeMarkRows n ++ [⟨⌊T⌋ + 1, round4 y⟩]) =
        ((⌊T⌋ : ℤ) : ℚ) + round4 y := by
      rw [sumMarks_concat, hsum0]
    have hdelta : sumMarks (wholeMarkRows n ++ [⟨⌊T⌋ + 1, round4 y⟩]) - T = round4 y - y := by
      rw [hsum, hy]; ring
    refine ⟨?_, ?_, ?_, ?_⟩
    · unfold numbersSeq
      rw [List.map_append, number_wholeMarkRows, List.map_cons, List.map_nil]
      have h1 : (⌊T⌋ + 1 : ℤ) = 1 + (n : ℤ) := by omega
      rw [show ([⌊T⌋ + 1] : List ℤ) = [1 + (n : ℤ)] from by rw [h1], seqNumbers_concat,
        List.length_append, length_wholeMarkRows]
      rfl
    · rw [hdelta]; exact round4_sub_abs y
    · intro hlt
      constructor
      · have := round4_gap_lt y
        linarith [hdelta]
      · exact Or.inr ⟨wholeMarkRows n, ⟨⌊T⌋ + 1, round4 y⟩, rfl, onGrid_round4 y⟩
    · intro hgt
      refine ⟨wholeMarkRows n, ⟨⌊T⌋ + 1, round4 y⟩, rfl, onGrid_round4 y, ?_⟩
      exact onGrid_pos_ge (onGrid_round4 y) (by simpa using hpos)
  · rw [if_neg hpos]
    push_neg at hpos
    have hzero : round4 y = 0 := le_antisymm hpos (round4_nonneg hy0)
    have hylt : y < 1 / 20000 := by
      by_contra hcon
      push_neg at hcon
      have := round4_pos_of_ge_half hcon
      rw [hzero] at this
      exact lt_irrefl 0 this
    refine ⟨?_, ?_, ?_, ?_⟩
    · unfold numbersSeq
      rw [number_wholeMarkRows, length_wholeMarkRows]
    · rw [hsum0]
      rw [show ((⌊T⌋ : ℤ) : ℚ) - T = -y from by rw [hy]; ring, abs_neg, abs_of_nonneg hy0]
      linarith
    · intro hlt
      constructor
      · rw [hsum0] at hlt ⊢
        have : T - ((⌊T⌋ : ℤ) : ℚ) = y := by rw [hy]
        linarith [hylt]
      · rcases Nat.eq_zero_or_pos n with h0 | hpos2
        · left; rw [h0]; rfl
        · right
          obtain ⟨m, hm⟩ := Nat.exists_eq_succ_of_ne_zero (Nat.pos_iff_ne_zero.mp hpos2)
          refine ⟨wholeMarkRows m, ⟨(m : ℤ) + 1, 1⟩, ?_, onGrid_one⟩
          rw [hm, wholeMarkRows_succ]
    · intro hgt
      exfalso
      rw [hsum0] at hgt
      linarith [hy0]

theorem sumMarks_reverse (l : List AQ) : sumMarks l.reverse = sumMarks l := by
  unfold sumMarks
  simp [List.sum_reverse]

theorem renumberFrom_concat (i : ℤ) (zs : List AQ) (p : AQ) :
    renumberFrom i (zs ++ [p]) = renumberFrom i zs ++ [⟨i + zs.length, p.max_mark⟩] := by
  rw [renumberFrom_append]
  rfl

/-- Sum after the absorb branch (on-grid last mark): the rounded increment
is added exactly. -/
theorem ensure_absorb_sum (ys : List AQ) (q : AQ) (T : ℚ)
    (hq : onGrid q.max_mark)
    (hlt : sumMarks (ys ++ [q]) < T) (habs : round4 (T - sumMarks (ys ++ [q])) ≤ 1) :
    sumMarks (ensure_questions_total_marks (ys ++ [q]) T) =
      sumMarks (ys ++ [q]) + round4 (T - sumMarks (ys ++ [q])) := by
  have hne : ys ++ [q] ≠ [] := by simp
  rw [ensure_absorb_eq _ _ hne hlt habs, sumMarks_renumberFrom, updateLast_concat]
  have h1 : sumMarks (ys ++
      [(fun p => (⟨p.number,
          round4 (p.max_mark + round4 (T - sumMarks (ys ++ [q])))⟩ : AQ)) q])
      = sumMarks ys + round4 (q.max_mark + round4 (T - sumMarks (ys ++ [q]))) := by
    rw [sumMarks_concat]
  rw [h1, round4_eq_of_onGrid (onGrid_add hq (onGrid_round4 _)), sumMarks_concat]
  ring

/-- Sum after the append branch: the whole-mark loop contributes exactly
the rounded shortfall. -/
theorem ensure_append_sum (qs : List AQ) (T : ℚ) (hne : qs ≠ [])
    (hlt : sumMarks qs < T) (happ : ¬ round4 (T - sumMarks qs) ≤ 1) :
    sumMarks (ensure_questions_total_marks qs T) =
      sumMarks qs + round4 (T - sumMarks qs) := by
  rw [ensure_append_eq _ _ hne hlt happ, sumMarks_renumberFrom, sumMarks_append]
  push_neg at happ
  have hr : 0 < round4 (T - sumMarks qs) := by linarith
  have := appendWholeMarks_post ((qs.getLast?).elim 0 AQ.number) _ (onGrid_round4 _) hr
  rw [this.1]

/-- Core reconciliation guarantee for on-grid starting marks (any sign):
numbers come out `1..N` and the sum lands within half a grid step of the
required total. -/
theorem ensure_core (qs : List AQ) (T : ℚ) (hT : 0 ≤ T)
    (hgrid : ∀ p ∈ qs, onGrid p.max_mark) :
    numbersSeq (ensure_questions_total_marks qs T) ∧
    |sumMarks (ensure_questions_total_marks qs T) - T| ≤ 1 / 20000 := by
  rcases List.eq_nil_or_concat qs with rfl | ⟨ys, q, rfl⟩
  · have h := ensure_empty_post T hT
    exact ⟨h.1, h.2.1⟩
  · rw [List.concat_eq_append] at hgrid ⊢
    have hne : ys ++ [q] ≠ [] := by simp
    have hq : onGrid q.max_mark := hgrid q (by simp)
    rcases lt_trichotomy (sumMarks (ys ++ [q])) T with hlt | heq | hgt
    · by_cases habs : round4 (T - sumMarks (ys ++ [q])) ≤ 1
      · refine ⟨?_, ?_⟩
        · rw [ensure_absorb_eq _ _ hne hlt habs]
          exact renumberFrom_numbersSeq _
        · rw [ensure_absorb_sum ys q T hq hlt habs,
            show sumMarks (ys ++ [q]) + round4 (T - sumMarks (ys ++ [q])) - T
              = round4 (T - sumMarks (ys ++ [q])) - (T - sumMarks (ys ++ [q])) from by ring]
          exact round4_sub_abs _
      · refine ⟨?_, ?_⟩
        · rw [ensure_append_eq _ _ hne hlt habs]
          exact renumberFrom_numbersSeq _
        · rw [ensure_append_sum _ T hne hlt habs,
            show sumMarks (ys ++ [q]) + round4 (T - sumMarks (ys ++ [q])) - T
              = round4 (T - sumMarks (ys ++ [q])) - (T - sumMarks (ys ++ [q])) from by ring]
          exact round4_sub_abs _
    · refine ⟨?_, ?_⟩
      · rw [ensure_equal_eq _ _ hne heq]
        exact renumberFrom_numbersSeq _
      · rw [ensure_equal_eq _ _ hne heq, sumMarks_renumberFrom, heq]
        simp
    · have hpost := shrinkLoop_post ((ys ++ [q]).reverse) T hT (sumMarks (ys ++ [q]))
        (fun p hp => hgrid p (List.mem_reverse.mp hp)) (sumMarks_reverse _).symm
        (le_of_lt hgt)
      refine ⟨?_, ?_⟩
      · rw [ensure_shrink_eq _ _ hne hgt]
        exact renumberFrom_numbersSeq _
      · rw [ensure_shrink_eq _ _ hne hgt, sumMarks_renumberFrom, sumMarks_reverse]
        exact hpost.1

/-- Full reconciliation postcondition for nonnegative on-grid starting
marks. -/
theorem ensure_post (qs : List AQ) (T : ℚ) (hT : 0 ≤ T)
    (hgrid : ∀ p ∈ qs, onGrid p.max_mark) (hnn : ∀ p ∈ qs, 0 ≤ p.max_mark) :
    ReconPost T (ensure_questions_total_marks qs T) := by
  obtain ⟨hnum, hbound⟩ := ensure_core qs T hT hgrid
  refine ⟨hnum, hbound, ?_, ?_⟩
  · -- undershoot: strict gap, and the last row is on-grid
    rcases List.eq_nil_or_concat qs with rfl | ⟨ys, q, rfl⟩
    · exact (ensure_empty_post T hT).2.2.1
    · rw [List.concat_eq_append] at hgrid ⊢
      have hne : ys ++ [q] ≠ [] := by simp
      have hq : onGrid q.max_mark := hgrid q (by simp)
      rcases lt_trichotomy (sumMarks (ys ++ [q])) T with hlt | heq | hgt
      · by_cases habs : round4 (T - sumMarks (ys ++ [q])) ≤ 1
        · have hsum := ensure_absorb_sum ys q T hq hlt habs
          rw [ensure_absorb_eq _ _ hne hlt habs, updateLast_concat,
            renumberFrom_concat] at hsum ⊢
          intro h
          rw [hsum] at h ⊢
          have := round4_gap_lt (T - sumMarks (ys ++ [q]))
          exact ⟨by linarith, Or.inr ⟨renumberFrom 1 ys, _, rfl, onGrid_round4 _⟩⟩
        · push_neg at habs
          have hr : 0 < round4 (T - sumMarks (ys ++ [q])) := by linarith
          obtain ⟨hsumA, hallA, zs, p, hzp, hpgrid, hppos⟩ :=
            appendWholeMarks_post (((ys ++ [q]).getLast?).elim 0 AQ.number) _
              (onGrid_round4 _) hr
          have hsum := ensure_append_sum (ys ++ [q]) T hne hlt (not_le.mpr habs)
          rw [ensure_append_eq _ _ hne hlt (not_le.mpr habs), hzp,
            ← List.append_assoc, renumberFrom_concat] at hsum ⊢
          intro h
          rw [hsum] at h ⊢
          have := round4_gap_lt (T - sumMarks (ys ++ [q]))
          exact ⟨by linarith, Or.inr ⟨renumberFrom 1 ((ys ++ [q]) ++ zs), _, rfl, hpgrid⟩⟩
      · rw [ensure_equal_eq _ _ hne heq, sumMarks_renumberFrom, heq]
        intro h
        exact absurd h (lt_irrefl T)
      · have hpost := shrinkLoop_post ((ys ++ [q]).reverse) T hT (sumMarks (ys ++ [q]))
          (fun p hp => hgrid p (List.mem_reverse.mp hp)) (sumMarks_reverse _).symm
          (le_of_lt hgt)
        rw [ensure_shrink_eq _ _ hne hgt]
        rw [sumMarks_renumberFrom, sumMarks_reverse]
        intro h
        obtain ⟨hgap, qh, r2, hshape, hgridh⟩ := hpost.2.1 h
        refine ⟨hgap, Or.inr ?_⟩
        rw [hshape, List.reverse_cons, renumberFrom_concat]
        exact ⟨renumberFrom 1 r2.reverse, _, rfl, hgridh⟩
  · -- overshoot: the last row carries an on-grid mark of at least one step
    rcases List.eq_nil_or_concat qs with rfl | ⟨ys, q, rfl⟩
    · exact (ensure_empty_post T hT).2.2.2
    · rw [List.concat_eq_append] at hgrid hnn ⊢
      have hne : ys ++ [q] ≠ [] := by simp
      have hq : onGrid q.max_mark := hgrid q (by simp)
      have hqnn : 0 ≤ q.max_mark := hnn q (by simp)
      rcases lt_trichotomy (sumMarks (ys ++ [q])) T with hlt | heq | hgt
      · by_cases habs : round4 (T - sumMarks (ys ++ [q])) ≤ 1
        · have hsum := ensure_absorb_sum ys q T hq hlt habs
          have hmark : round4 (q.max_mark + round4 (T - sumMarks (ys ++ [q]))) =
              q.max_mark + round4 (T - sumMarks (ys ++ [q])) :=
            round4_eq_of_onGrid (onGrid_add hq (onGrid_round4 _))
          rw [ensure_absorb_eq _ _ hne hlt habs, updateLast_concat,
            renumberFrom_concat] at hsum ⊢
          intro h
          rw [hsum] at h
          have hup : T - sumMarks (ys ++ [q]) <
              round4 (T - sumMarks (ys ++ [q])) := by linarith
          have hpos : 0 < round4 (T - sumMarks (ys ++ [q])) := by linarith
          have hge := onGrid_pos_ge (onGrid_round4 (T - sumMarks (ys ++ [q]))) hpos
          refine ⟨renumberFrom 1 ys, _, rfl, onGrid_round4 _, ?_⟩
          show (1 : ℚ) / 10000 ≤ round4 (q.max_mark + round4 (T - sumMarks (ys ++ [q])))
          rw [hmark]
          linarith
        · push_neg at habs
          have hr : 0 < round4 (T - sumMarks (ys ++ [q])) := by linarith
          obtain ⟨hsumA, hallA, zs, p, hzp, hpgrid, hppos⟩ :=
            appendWholeMarks_post (((ys ++ [q]).getLast?).elim 0 AQ.number) _
              (onGrid_round4 _) hr
          rw [ensure_append_eq _ _ hne hlt (not_le.mpr habs), hzp,
            ← List.append_assoc, renumberFrom_concat]
          intro h
          exact ⟨renumberFrom 1 ((ys ++ [q]) ++ zs), _, rfl, hpgrid,
            onGrid_pos_ge hpgrid hppos⟩
      · rw [ensure_equal_eq _ _ hne heq, sumMarks_renumberFrom, heq]
        intro h
        exact absurd h (lt_irrefl T)
      · have hpost := shrinkLoop_post ((ys ++ [q]).reverse) T hT (sumMarks (ys ++ [q]))
          (fun p hp => hgrid p (List.mem_reverse.mp hp)) (sumMarks_reverse _).symm
          (le_of_lt hgt)
        rw [ensure_shrink_eq _ _ hne hgt]
        rw [sumMarks_renumberFrom, sumMarks_reverse]
        intro h
        obtain ⟨qh, r2, hshape, hgridh, hgeh⟩ := hpost.2.2 h
        rw [hshape, List.reverse_cons, renumberFrom_concat]
        exact ⟨renumberFrom 1 r2.reverse, _, rfl, hgridh, hgeh⟩

theorem concat_last_eq {ys ys2 : List AQ} {q q2 : AQ} (h : ys ++ [q] = ys2 ++ [q2]) :
    q = q2 := by
  have := congrArg List.getLast? h
  rw [List.getLast?_concat, List.getLast?_concat] at this
  exact Option.some.inj this

/-- A second reconciliation run over a list satisfying the first run's
postcondition is the identity. -/
theorem ensure_second_run (out : List AQ) (T : ℚ) (hT : 0 ≤ T) (hp : ReconPost T out) :
    ensure_questions_total_marks out T = out := by
  obtain ⟨hnum, hbound, hunder, hover⟩ := hp
  rcases List.eq_nil_or_concat out with rfl | ⟨ys, q, rfl⟩
  · have hb : |sumMarks ([] : List AQ) - T| ≤ 1 / 20000 := hbound
    rw [sumMarks_nil] at hb hunder
    have hTle : T ≤ 1 / 20000 := by
      have := abs_le.mp hb
      linarith [this.1]
    have hTlt : T < 1 / 20000 := by
      rcases eq_or_lt_of_le hT with h0 | hpos
      · rw [← h0]; norm_num
      · have := (hunder (by linarith)).1
        linarith
    have hpy : pyInt T = 0 := by
      unfold pyInt
      rw [if_pos hT]
      rw [Int.floor_eq_zero_iff, Set.mem_Ico]
      exact ⟨hT, by linarith⟩
    rw [ensure_empty_eq, hpy]
    simp only [Int.cast_zero, sub_zero, Int.toNat_zero]
    rw [round4_eq_zero hT hTlt]
    rw [if_neg (lt_irrefl 0)]
    rfl
  · rw [List.concat_eq_append] at hnum hbound hunder hover ⊢
    have hne : ys ++ [q] ≠ [] := by simp
    rcases lt_trichotomy (sumMarks (ys ++ [q])) T with hlt | heq | hgt
    · obtain ⟨hgap, hlast⟩ := hunder hlt
      rcases hlast with hnil | ⟨ys2, q2, heq2, hgrid2⟩
      · exact absurd hnil (by simp)
      · have hqq : q = q2 := concat_last_eq heq2
        have hqgrid : onGrid q.max_mark := by rw [hqq]; exact hgrid2
        have hrem : round4 (T - sumMarks (ys ++ [q])) = 0 :=
          round4_eq_zero (by linarith) (by linarith)
        have habs : round4 (T - sumMarks (ys ++ [q])) ≤ 1 := by
          rw [hrem]; norm_num
        rw [ensure_absorb_eq _ _ hne hlt habs, updateLast_concat]
        have hfq : (⟨q.number,
            round4 (q.max_mark + round4 (T - sumMarks (ys ++ [q])))⟩ : AQ) = q := by
          rw [hrem, add_zero, round4_eq_of_onGrid hqgrid]
        rw [hfq]
        exact renumberFrom_eq_self _ hnum
    · rw [ensure_equal_eq _ _ hne heq]
      exact renumberFrom_eq_self _ hnum
    · obtain ⟨ys2, q2, heq2, hgrid2, hge2⟩ := hover hgt
      have hqq : q = q2 := concat_last_eq heq2
      have hqgrid : onGrid q.max_mark := by rw [hqq]; exact hgrid2
      have hqge : 1 / 10000 ≤ q.max_mark := by rw [hqq]; exact hge2
      have hdelta : sumMarks (ys ++ [q]) - T ≤ 1 / 20000 := by
        have := abs_le.mp hbound
        linarith [this.2]
      rw [ensure_shrink_eq _ _ hne hgt]
      have hrev : (ys ++ [q]).reverse = q :: ys.reverse := by
        rw [List.reverse_append]
        rfl
      rw [hrev]
      have hcond : ¬ T ≤ sumMarks (ys ++ [q]) - q.max_mark := by
        push_neg
        linarith
      rw [shrinkLoop, if_pos hgt, if_neg hcond]
      have hbd : round4 (T - (sumMarks (ys ++ [q]) - q.max_mark)) = q.max_mark := by
        rw [show T - (sumMarks (ys ++ [q]) - q.max_mark)
            = q.max_mark - (sumMarks (ys ++ [q]) - T) from by ring]
        exact round4_sub_small hqgrid (by linarith) hdelta
      rw [hbd]
      have heta : (⟨q.number, q.max_mark⟩ : AQ) = q := rfl
      rw [heta, List.reverse_cons, List.reverse_reverse]
      exact renumberFrom_eq_self _ hnum

/-- With a negative target and nonnegative on-grid marks the shrink loop
deletes every row: each deletion keeps the running total nonnegative, so
the loop never stops early. -/
theorem shrinkLoop_neg (rev : List AQ) (T : ℚ) (hT : T < 0) :
    ∀ running, (∀ p ∈ rev, onGrid p.max_mark ∧ 0 ≤ p.max_mark) →
    running = sumMarks rev → shrinkLoop rev running T = [] := by
  induction rev with
  | nil => intro running _ _; rfl
  | cons q rest ih =>
    intro running hok hrun
    have hq := hok q (by simp)
    have hrest : ∀ p ∈ rest, onGrid p.max_mark ∧ 0 ≤ p.max_mark :=
      fun p hp => hok p (by simp [hp])
    have hsnn : 0 ≤ sumMarks rest := sumMarks_nonneg (fun p hp => (hrest p hp).2)
    rw [sumMarks_cons] at hrun
    have hrnn : 0 ≤ running := by linarith [hq.2]
    have hdiff : running - q.max_mark = sumMarks rest := by linarith
    have hgridrest : onGrid (sumMarks rest) :=
      onGrid_sumMarks (fun p hp => (hrest p hp).1)
    rw [shrinkLoop, if_pos (by linarith : T < running),
      if_pos (by rw [hdiff]; linarith : T ≤ running - q.max_mark)]
    apply ih
    · exact hrest
    · rw [hdiff]
      exact round4_eq_of_onGrid hgridrest

/-! ### Claim C1 -/

/-- C1 (amended): for every required total `T ≥ 0` and every starting
question list whose max marks are integer multiples of `0.0001`, after
`ensure_questions_total_marks` the sum of `max_mark` equals `T` to within
`1e-4` and the question numbers are exactly `1..N` with no gaps. -/
theorem C1_reconcile_sum_and_numbering (qs : List AQ) (T : ℚ) (hT : 0 ≤ T)
    (hgrid : ∀ p ∈ qs, onGrid p.max_mark) :
    |sumMarks (ensure_questions_total_marks qs T) - T| ≤ 1 / 10000 ∧
    numbersSeq (ensure_questions_total_marks qs T) := by
  obtain ⟨hn, hb⟩ := ensure_core qs T hT hgrid
  exact ⟨le_trans hb (by norm_num), hn⟩

/-- C1 counterexample: eight questions of max mark `1.00004` (not a
multiple of `1e-4`) reconciled to the total `2` end with sum `1.99974`,
which misses `2` by `2.6e-4 > 1e-4`: each tail deletion rounds the
running total up half a step and the errors accumulate. -/
theorem C1_counterexample_offgrid :
    ¬ (|sumMarks (ensure_questions_total_marks
        [⟨1, 1.00004⟩, ⟨2, 1.00004⟩, ⟨3, 1.00004⟩, ⟨4, 1.00004⟩,
         ⟨5, 1.00004⟩, ⟨6, 1.00004⟩, ⟨7, 1.00004⟩, ⟨8, 1.00004⟩] 2) - 2| ≤ 1 / 10000) := by
  norm_num [ensure_questions_total_marks, sumMarks, shrinkLoop, renumberFrom, round4, round_eq]
  rw [abs_of_pos] <;> norm_num

/-- Witness for the amended C1 at a concrete input. -/
theorem C1_witness :
    (0 : ℚ) ≤ 38 ∧ (∀ p ∈ ([⟨1, 25/10⟩] : List AQ), onGrid p.max_mark) ∧
    (|sumMarks (ensure_questions_total_marks [⟨1, 25/10⟩] 38) - 38| ≤ 1 / 10000 ∧
     numbersSeq (ensure_questions_total_marks [⟨1, 25/10⟩] 38)) :=
  ⟨by norm_num, by intro p hp; simp at hp; rw [hp]; norm_num [onGrid],
   C1_reconcile_sum_and_numbering [⟨1, 25/10⟩] 38 (by norm_num)
     (by intro p hp; simp at hp; rw [hp]; norm_num [onGrid])⟩

/-! ### Claim C2 -/

/-- C2 (amended): reconciliation is idempotent for starting lists whose
max marks are nonnegative integer multiples of `0.0001`: a second run
with the same `T ≥ 0` returns the identical question list (hence every
max mark and number is stable, in particular to 4 decimal places). -/
theorem C2_reconcile_idempotent (qs : List AQ) (T : ℚ) (hT : 0 ≤ T)
    (h : ∀ p ∈ qs, onGrid p.max_mark ∧ 0 ≤ p.max_mark) :
    ensure_questions_total_marks (ensure_questions_total_marks qs T) T
      = ensure_questions_total_marks qs T :=
  ensure_second_run _ T hT
    (ensure_post qs T hT (fun p hp => (h p hp).1) (fun p hp => (h p hp).2))

/-- C2 counterexample: starting from eight questions of max mark
`1.00004` with required total `5.0003`, the first run yields a final
question of max mark `0`, and the second run with the same total changes
that mark to `0.0001` — a difference in the fourth decimal place, so the
second run is not a no-op. -/
theorem C2_counterexample_second_run_changes :
    ensure_questions_total_marks
      [⟨1, 1.00004⟩, ⟨2, 1.00004⟩, ⟨3, 1.00004⟩, ⟨4, 1.00004⟩,
       ⟨5, 1.00004⟩, ⟨6, 1.00004⟩, ⟨7, 1.00004⟩, ⟨8, 1.00004⟩] 5.0003
      = [⟨1, 1.00004⟩, ⟨2, 1.00004⟩, ⟨3, 1.00004⟩, ⟨4, 1.00004⟩, ⟨5, 1.00004⟩, ⟨6, 0⟩] ∧
    ensure_questions_total_marks
      [⟨1, 1.00004⟩, ⟨2, 1.00004⟩, ⟨3, 1.00004⟩, ⟨4, 1.00004⟩, ⟨5, 1.00004⟩, ⟨6, 0⟩] 5.0003
      = [⟨1, 1.00004⟩, ⟨2, 1.00004⟩, ⟨3, 1.00004⟩, ⟨4, 1.00004⟩,
         ⟨5, 1.00004⟩, ⟨6, 0.0001⟩] := by
  constructor <;>
    norm_num [ensure_questions_total_marks, sumMarks, shrinkLoop, renumberFrom, updateLast,
      round4, round_eq]

/-- Witness for the amended C2 at a concrete input. -/
theorem C2_witness :
    (0 : ℚ) ≤ 7/2 ∧
    (∀ p ∈ ([⟨1, 2⟩, ⟨2, 3⟩] : List AQ), onGrid p.max_mark ∧ 0 ≤ p.max_mark) ∧
    ensure_questions_total_marks
        (ensure_questions_total_marks [⟨1, 2⟩, ⟨2, 3⟩] (7/2)) (7/2)
      = ensure_questions_total_marks [⟨1, 2⟩, ⟨2, 3⟩] (7/2) :=
  ⟨by norm_num,
   by intro p hp; simp at hp; rcases hp with h | h <;> rw [h] <;>
     exact ⟨by norm_num [onGrid], by norm_num⟩,
   C2_reconcile_idempotent [⟨1, 2⟩, ⟨2, 3⟩] (7/2) (by norm_num)
     (by intro p hp; simp at hp; rcases hp with h | h <;> rw [h] <;>
       exact ⟨by norm_num [onGrid], by norm_num⟩)⟩

/-! ### Claim C9 -/

/-- C9 (amended): a negative required total is not rejected before any
row mutation.  For nonnegative on-grid max marks the call deletes every
existing question row (and adds none): the resulting list is empty. -/
theorem C9_negative_total_deletes_all (qs : List AQ) (T : ℚ) (hT : T < 0)
    (h : ∀ p ∈ qs, onGrid p.max_mark ∧ 0 ≤ p.max_mark) :
    ensure_questions_total_marks qs T = [] := by
  rcases List.eq_nil_or_concat qs with rfl | ⟨ys, q, rfl⟩
  · have hpy : pyInt T = ⌈T⌉ := by
      unfold pyInt
      rw [if_neg (not_le.mpr hT)]
    rw [ensure_empty_eq, hpy]
    have hneg : round4 (T - (⌈T⌉ : ℚ)) ≤ 0 := by
      apply round4_nonpos
      linarith [Int.le_ceil T]
    rw [if_neg (not_lt.mpr hneg)]
    have htn : (⌈T⌉ : ℤ).toNat = 0 := by
      have hc : ⌈T⌉ ≤ 0 := Int.ceil_le.mpr (by push_cast; linarith)
      omega
    rw [htn]
    rfl
  · rw [List.concat_eq_append] at h ⊢
    have hne : ys ++ [q] ≠ [] := by simp
    have hnn : 0 ≤ sumMarks (ys ++ [q]) := sumMarks_nonneg (fun p hp => (h p hp).2)
    have hgt : T < sumMarks (ys ++ [q]) := by linarith
    rw [ensure_shrink_eq _ _ hne hgt]
    rw [shrinkLoop_neg ((ys ++ [q]).reverse) T hT (sumMarks (ys ++ [q]))
      (fun p hp => h p (List.mem_reverse.mp hp)) (sumMarks_reverse _).symm]
    rfl

/-- C9 counterexample: one question of max mark `1.0` with required
total `-1.0` is deleted, not rejected: the row set changes. -/
theorem C9_counterexample_row_deleted :
    ensure_questions_total_marks [⟨1, 1⟩] (-1) = [] ∧
    ([] : List AQ) ≠ [⟨1, 1⟩] := by
  constructor
  · norm_num [ensure_questions_total_marks, sumMarks, shrinkLoop, renumberFrom, round4, round_eq]
  · simp

/-- Witness for the amended C9 at a concrete input. -/
theorem C9_witness :
    (-1 : ℚ) < 0 ∧
    (∀ p ∈ ([⟨1, 1⟩] : List AQ), onGrid p.max_mark ∧ 0 ≤ p.max_mark) ∧
    ensure_questions_total_marks [⟨1, 1⟩] (-1) = [] :=
  ⟨by norm_num,
   by intro p hp; simp at hp; rw [hp]; exact ⟨by norm_num [onGrid], by norm_num⟩,
   C9_negative_total_deletes_all [⟨1, 1⟩] (-1) (by norm_num)
     (by intro p hp; simp at hp; rw [hp]; exact ⟨by norm_num [onGrid], by norm_num⟩)⟩

/-! ## TermMaximaResolver and BandClassifier (app.py 453-545)

`normalize_subject` maps request strings onto the three canonical
subjects and aborts the request otherwise; the model therefore uses an
inductive type for the already-normalised subject.  Papers stay strings,
because `get_term_max_for_paper` looks the `(subject, paper)` pair up in
a dict and resolves unknown pairs to `0.0`. -/

inductive Subject where
  | maths
  | reading
  | spag
  deriving DecidableEq

/-- `PAPERS` (app.py 54-58): the two papers of each subject. -/
def PAPERS : Subject → String × String
  | .maths => ("Arithmetic", "Reasoning")
  | .reading => ("Paper 1", "Paper 2")
  | .spag => ("Spelling", "Grammar")

/-- A `TermConfig` row: per `(class, academic year, term)` overrides of
the six paper maxima; a `none` field falls back to the system default. -/
structure TermConfig where
  class_id : ℕ
  academic_year_id : ℕ
  term : String
  arith_max : Option ℚ
  reason_max : Option ℚ
  reading_p1_max : Option ℚ
  reading_p2_max : Option ℚ
  spelling_max : Option ℚ
  grammar_max : Option ℚ
  deriving DecidableEq

/-- Subject-specific band thresholds (`BAND_THRESHOLDS` entries). -/
structure Thresholds where
  wts_max : ℚ
  ot_max : ℚ
  deriving DecidableEq

/-- The `app.config` constants consumed by the resolver and classifier. -/
structure AppConfig where
  ARITH_MAX : ℚ
  REASON_MAX : ℚ
  READING_P1_MAX : ℚ
  READING_P2_MAX : ℚ
  SPAG_SPELLING_MAX : ℚ
  SPAG_GRAMMAR_MAX : ℚ
  bandThresholds : Subject → Thresholds

/-- The concrete values of `config.py`. -/
def defaultConfig : AppConfig where
  ARITH_MAX := 38
  REASON_MAX := 35
  READING_P1_MAX := 40
  READING_P2_MAX := 40
  SPAG_SPELLING_MAX := 40
  SPAG_GRAMMAR_MAX := 40
  bandThresholds := fun s =>
    match s with
    | .maths => ⟨55, 75⟩
    | .reading => ⟨65, 85⟩
    | .spag => ⟨65, 85⟩

/-- The per-config dict `defaults.get((subject, paper))` inside the
`if cfg:` block: `none` models a missing key, `some none` a present key
whose `TermConfig` field is null. -/
def cfgSlot (t : TermConfig) (subject : Subject) (paper : String) : Option (Option ℚ) :=
  if subject = .maths ∧ paper = "Arithmetic" then some t.arith_max
  else if subject = .maths ∧ paper = "Reasoning" then some t.reason_max
  else if subject = .reading ∧ paper = "Paper 1" then some t.reading_p1_max
  else if subject = .reading ∧ paper = "Paper 2" then some t.reading_p2_max
  else if subject = .spag ∧ paper = "Spelling" then some t.spelling_max
  else if subject = .spag ∧ paper = "Grammar" then some t.grammar_max
  else none

/-- The system-wide dict `defaults.get((subject, paper), 0.0)` of the
fallback block, before the `.get` default is applied. -/
def configDefault (cfg : AppConfig) (subject : Subject) (paper : String) : Option ℚ :=
  if subject = .maths ∧ paper = "Arithmetic" then some cfg.ARITH_MAX
  else if subject = .maths ∧ paper = "Reasoning" then some cfg.REASON_MAX
  else if subject = .reading ∧ paper = "Paper 1" then some cfg.READING_P1_MAX
  else if subject = .reading ∧ paper = "Paper 2" then some cfg.READING_P2_MAX
  else if subject = .spag ∧ paper = "Spelling" then some cfg.SPAG_SPELLING_MAX
  else if subject = .spag ∧ paper = "Grammar" then some cfg.SPAG_GRAMMAR_MAX
  else none

/-- Model of `get_term_max_for_paper`: prefer the non-null field of the
first matching `TermConfig` row, else the system default; unknown
`(subject, paper)` pairs resolve to `0.0`. -/
def get_term_max_for_paper (cfg : AppConfig) (tcs : List TermConfig)
    (class_id academic_year_id : ℕ) (term : String) (subject : Subject)
    (paper : String) : ℚ :=
  match tcs.find? (fun t => t.class_id = class_id ∧
      t.academic_year_id = academic_year_id ∧ t.term = term) with
  | some t =>
    match cfgSlot t subject paper with
    | some (some v) => v
    | _ => (configDefault cfg subject paper).getD 0
  | none => (configDefault cfg subject paper).getD 0

/-- Model of `compute_band_from_pct`: subject-specific thresholds map a
percentage onto one of the three band labels. -/
def compute_band_from_pct (cfg : AppConfig) (pct : ℚ) (subject : Subject) : String :=
  let th := cfg.bandThresholds subject
  if pct < th.wts_max then "Working towards ARE"
  else if pct < th.ot_max then "Working at ARE"
  else "Exceeding ARE"

/-- Model of `compute_combined_and_band`.  `arith or 0.0` replaces a null
score by `0.0` (for a numeric score the expression keeps its value, since
`0 or 0.0` is again zero). -/
def compute_combined_and_band (cfg : AppConfig) (tcs : List TermConfig)
    (arith reason : Option ℚ) (klass_id : ℕ) (term : String) (year_id : ℕ)
    (subject : Subject) : Option ℚ × Option String :=
  if arith = none ∧ reason = none then (none, none)
  else
    let a := arith.getD 0
    let r := reason.getD 0
    let paper_a := (PAPERS subject).1
    let paper_b := (PAPERS subject).2
    let total_max := get_term_max_for_paper cfg tcs klass_id year_id term subject paper_a
      + get_term_max_for_paper cfg tcs klass_id year_id term subject paper_b
    let combined_pct := if 0 < total_max then round1 ((a + r) / total_max * 100) else 0
    (some combined_pct, some (compute_band_from_pct cfg combined_pct subject))

/-! ### Claim C8 -/

/-- C8: with at least one score present and a positive combined ceiling,
`compute_combined_and_band` returns
`round(100 * (scoreA + scoreB) / (maxA + maxB), 1)` together with the
band classified from that percentage; and with both scores `None` it
returns `(None, None)`. -/
theorem C8_combined_pct_formula (cfg : AppConfig) (tcs : List TermConfig)
    (a b : Option ℚ) (klass_id : ℕ) (term : String) (year_id : ℕ) (subject : Subject)
    (hnb : ¬ (a = none ∧ b = none))
    (hpos : 0 < get_term_max_for_paper cfg tcs klass_id year_id term subject (PAPERS subject).1
      + get_term_max_for_paper cfg tcs klass_id year_id term subject (PAPERS subject).2) :
    compute_combined_and_band cfg tcs a b klass_id term year_id subject
      = (some (round1 (100 * (a.getD 0 + b.getD 0)
            / (get_term_max_for_paper cfg tcs klass_id year_id term subject (PAPERS subject).1
              + get_term_max_for_paper cfg tcs klass_id year_id term subject
                  (PAPERS subject).2))),
         some (compute_band_from_pct cfg
           (round1 (100 * (a.getD 0 + b.getD 0)
             / (get_term_max_for_paper cfg tcs klass_id year_id term subject (PAPERS subject).1
               + get_term_max_for_paper cfg tcs klass_id year_id term subject
                   (PAPERS subject).2))) subject)) ∧
    (∀ (tcs2 : List TermConfig) (k2 y2 : ℕ) (t2 : String) (s2 : Subject),
      compute_combined_and_band cfg tcs2 none none k2 t2 y2 s2 = (none, none)) := by
  refine ⟨?_, fun tcs2 k2 y2 t2 s2 => by simp [compute_combined_and_band]⟩
  simp only [compute_combined_and_band]
  rw [if_neg hnb, if_pos hpos]
  rw [show (a.getD 0 + b.getD 0)
      / (get_term_max_for_paper cfg tcs klass_id year_id term subject (PAPERS subject).1
        + get_term_max_for_paper cfg tcs klass_id year_id term subject (PAPERS subject).2) * 100
      = 100 * (a.getD 0 + b.getD 0)
      / (get_term_max_for_paper cfg tcs klass_id year_id term subject (PAPERS subject).1
        + get_term_max_for_paper cfg tcs klass_id year_id term subject (PAPERS subject).2)
    from by ring]

/-- Witness for C8: scores 20 and 15 with the default maths maxima 38/35
give `47.9` and the lowest band. -/
theorem C8_witness :
    (¬ ((some (20:ℚ)) = none ∧ (some (15:ℚ)) = none)) ∧
    ((0 : ℚ) < get_term_max_for_paper defaultConfig [] 1 1 "Autumn" .maths (PAPERS .maths).1
      + get_term_max_for_paper defaultConfig [] 1 1 "Autumn" .maths (PAPERS .maths).2) ∧
    compute_combined_and_band defaultConfig [] (some 20) (some 15) 1 "Autumn" 1 .maths
      = (some (479/10), some "Working towards ARE") := by
  have hmaxA : get_term_max_for_paper defaultConfig [] 1 1 "Autumn" .maths
      (PAPERS .maths).1 = 38 := by
    simp only [get_term_max_for_paper, configDefault, PAPERS, defaultConfig, List.find?,
      String.reduceEq]
    norm_num
  have hmaxB : get_term_max_for_paper defaultConfig [] 1 1 "Autumn" .maths
      (PAPERS .maths).2 = 35 := by
    simp only [get_term_max_for_paper, configDefault, PAPERS, defaultConfig, List.find?,
      String.reduceEq]
    norm_num
  have hpos : (0 : ℚ) < get_term_max_for_paper defaultConfig [] 1 1 "Autumn" .maths
      (PAPERS .maths).1
      + get_term_max_for_paper defaultConfig [] 1 1 "Autumn" .maths (PAPERS .maths).2 := by
    rw [hmaxA, hmaxB]
    norm_num
  refine ⟨by simp, hpos, ?_⟩
  rw [(C8_combined_pct_formula defaultConfig [] (some 20) (some 15) 1 "Autumn" 1 .maths
    (by simp) hpos).1]
  rw [hmaxA, hmaxB]
  norm_num [round1, round_eq, compute_band_from_pct, defaultConfig]

/-! ### Claim C10 -/

/-- C10: when at least one score is present but both resolved paper
maxima are `0` (the ConfigurationGap case), the function returns the
definite percentage `0.0` and the lowest band, not `None`; and a single
missing score is treated as `0.0`, still yielding a numeric percentage
and a band. -/
theorem C10_zero_maxima_lowest_band (cfg : AppConfig) (tcs : List TermConfig)
    (a b : Option ℚ) (klass_id : ℕ) (term : String) (year_id : ℕ) (subject : Subject)
    (hnb : ¬ (a = none ∧ b = none))
    (hA : get_term_max_for_paper cfg tcs klass_id year_id term subject (PAPERS subject).1 = 0)
    (hB : get_term_max_for_paper cfg tcs klass_id year_id term subject (PAPERS subject).2 = 0)
    (hth : 0 < (cfg.bandThresholds subject).wts_max) :
    compute_combined_and_band cfg tcs a b klass_id term year_id subject
      = (some 0, some "Working towards ARE") ∧
    (∀ (tcs2 : List TermConfig) (k2 y2 : ℕ) (t2 : String) (s2 : Subject) (x : ℚ),
      compute_combined_and_band cfg tcs2 none (some x) k2 t2 y2 s2
        = compute_combined_and_band cfg tcs2 (some 0) (some x) k2 t2 y2 s2 ∧
      compute_combined_and_band cfg tcs2 (some x) none k2 t2 y2 s2
        = compute_combined_and_band cfg tcs2 (some x) (some 0) k2 t2 y2 s2 ∧
      (compute_combined_and_band cfg tcs2 none (some x) k2 t2 y2 s2).1 ≠ none ∧
      (compute_combined_and_band cfg tcs2 none (some x) k2 t2 y2 s2).2 ≠ none) := by
  constructor
  · simp only [compute_combined_and_band]
    rw [if_neg hnb, hA, hB]
    rw [if_neg (by norm_num : ¬ (0:ℚ) < 0 + 0)]
    simp only [compute_band_from_pct]
    rw [if_pos hth]
  · intro tcs2 k2 y2 t2 s2 x
    refine ⟨by simp [compute_combined_and_band], by simp [compute_combined_and_band], ?_, ?_⟩
    · simp [compute_combined_and_band]
    · simp [compute_combined_and_band]

/-- Witness for C10: a `TermConfig` row overriding both maths maxima to
zero with one score present. -/
theorem C10_witness :
    (¬ ((some (5:ℚ)) = none ∧ (none : Option ℚ) = none)) ∧
    get_term_max_for_paper defaultConfig
      [⟨1, 1, "Autumn", some 0, some 0, none, none, none, none⟩] 1 1 "Autumn" .maths
      (PAPERS .maths).1 = 0 ∧
    get_term_max_for_paper defaultConfig
      [⟨1, 1, "Autumn", some 0, some 0, none, none, none, none⟩] 1 1 "Autumn" .maths
      (PAPERS .maths).2 = 0 ∧
    0 < (defaultConfig.bandThresholds .maths).wts_max ∧
    compute_combined_and_band defaultConfig
      [⟨1, 1, "Autumn", some 0, some 0, none, none, none, none⟩] (some 5) none 1 "Autumn" 1
      .maths = (some 0, some "Working towards ARE") := by
  have hA : get_term_max_for_paper defaultConfig
      [⟨1, 1, "Autumn", some 0, some 0, none, none, none, none⟩] 1 1 "Autumn" .maths
      (PAPERS .maths).1 = 0 := by
    simp only [get_term_max_for_paper, cfgSlot, PAPERS, List.find?, String.reduceEq]
    norm_num
  have hB : get_term_max_for_paper defaultConfig
      [⟨1, 1, "Autumn", some 0, some 0, none, none, none, none⟩] 1 1 "Autumn" .maths
      (PAPERS .maths).2 = 0 := by
    simp only [get_term_max_for_paper, cfgSlot, PAPERS, List.find?, String.reduceEq]
    norm_num
  refine ⟨by simp, hA, hB, by norm_num [defaultConfig], ?_⟩
  exact (C10_zero_maxima_lowest_band defaultConfig
    [⟨1, 1, "Autumn", some 0, some 0, none, none, none, none⟩] (some 5) none 1 "Autumn" 1
    .maths (by simp) hA hB (by norm_num [defaultConfig])).1

/-! ## ResultAggregator: `sync_assessment_totals_to_results` (app.py 696-751) -/

/-- A pupil row; only `id` and the current `class_id` matter to the
aggregator (the query's ordering by number and name does not change the
final state, each pupil upserting its own key). -/
structure Pupil where
  id : ℕ
  class_id : ℕ
  deriving DecidableEq

/-- An assessment's identity and scope.  `paper` is nullable in the
schema; `a.paper or PAPERS[subject][0]` falls back to the first paper. -/
structure Assessment where
  id : ℕ
  class_id : ℕ
  academic_year_id : ℕ
  term : String
  subject : Subject
  paper : Option String
  deriving DecidableEq

/-- An `AssessmentQuestion` row as the aggregator sees it: it only keys
the `q_by_id` dict, so only the ids matter here. -/
structure AssessmentQuestionRow where
  id : ℕ
  assessment_id : ℕ
  deriving DecidableEq

/-- A `PupilQuestionScore` row; `float(s.mark or 0.0)` treats a null mark
as zero. -/
structure PupilQuestionScore where
  assessment_id : ℕ
  pupil_id : ℕ
  question_id : ℕ
  mark : Option ℚ
  deriving DecidableEq

/-- The six Result columns a paper can map to. -/
inductive RField where
  | arithmetic
  | reasoning
  | reading_p1
  | reading_p2
  | spelling
  | grammar
  deriving DecidableEq

/-- `result_field_for_paper`: `(subject, paper) → column`, defaulting to
`arithmetic` for unknown pairs (`mapping.get(pair, "arithmetic")`). -/
def result_field_for_paper (subject : Subject) (paper : String) : RField :=
  if subject = .maths ∧ paper = "Arithmetic" then .arithmetic
  else if subject = .maths ∧ paper = "Reasoning" then .reasoning
  else if subject = .reading ∧ paper = "Paper 1" then .reading_p1
  else if subject = .reading ∧ paper = "Paper 2" then .reading_p2
  else if subject = .spag ∧ paper = "Spelling" then .spelling
  else if subject = .spag ∧ paper = "Grammar" then .grammar
  else .arithmetic

/-- A `Result` row. -/
structure Result where
  pupil_id : ℕ
  academic_year_id : ℕ
  term : String
  subject : Subject
  class_id_snapshot : Option ℕ
  arithmetic : Option ℚ
  reasoning : Option ℚ
  reading_p1 : Option ℚ
  reading_p2 : Option ℚ
  spelling : Option ℚ
  grammar : Option ℚ
  combined_pct : Option ℚ
  summary : Option String
  deriving DecidableEq

/-- `getattr(r, field)`. -/
def getField (r : Result) : RField → Option ℚ
  | .arithmetic => r.arithmetic
  | .reasoning => r.reasoning
  | .reading_p1 => r.reading_p1
  | .reading_p2 => r.reading_p2
  | .spelling => r.spelling
  | .grammar => r.grammar

/-- `setattr(r, field, v)`. -/
def setField (r : Result) (f : RField) (v : Option ℚ) : Result :=
  match f with
  | .arithmetic => { r with arithmetic := v }
  | .reasoning => { r with reasoning := v }
  | .reading_p1 => { r with reading_p1 := v }
  | .reading_p2 => { r with reading_p2 := v }
  | .spelling => { r with spelling := v }
  | .grammar => { r with grammar := v }

/-- `get_result_scores(r, subject)`: the two paper scores of a subject. -/
def get_result_scores (r : Result) : Subject → Option ℚ × Option ℚ
  | .maths => (r.arithmetic, r.reasoning)
  | .reading => (r.reading_p1, r.reading_p2)
  | .spag => (r.spelling, r.grammar)

/-- The shared relational state the aggregator reads and writes. -/
structure SyncState where
  pupils : List Pupil
  questions : List AssessmentQuestionRow
  scores : List PupilQuestionScore
  results : List Result
  termConfigs : List TermConfig
  deriving DecidableEq

/-- The upsert key of `Result.query.filter_by(...)` in the sync loop. -/
def resultKeyMatches (a : Assessment) (pid : ℕ) (r : Result) : Bool :=
  decide (r.pupil_id = pid ∧ r.academic_year_id = a.academic_year_id ∧
    r.term = a.term ∧ r.subject = a.subject)

/-- Mutating the first row a query's `.first()` returned. -/
def updateFirst (pred : Result → Bool) (f : Result → Result) : List Result → List Result
  | [] => []
  | r :: rest => if pred r then f r :: rest else r :: updateFirst pred f rest

/-- The freshly created row of the `if not r:` branch. -/
def blankResult (a : Assessment) (p : Pupil) : Result :=
  ⟨p.id, a.academic_year_id, a.term, a.subject, some p.class_id,
   none, none, none, none, none, none, none, none⟩

/-- The common write path: store the summed total in the resolved field,
recompute combined percentage and band, refresh the class snapshot. -/
def applyResultWrite (cfg : AppConfig) (tcs : List TermConfig) (a : Assessment)
    (field : RField) (p : Pupil) (total_mark : ℚ) (r : Result) : Result :=
  let r1 := setField r field (some total_mark)
  let sc := get_result_scores r1 a.subject
  let cb := compute_combined_and_band cfg tcs sc.1 sc.2 p.class_id a.term
    a.academic_year_id a.subject
  { r1 with combined_pct := cb.1, summary := cb.2, class_id_snapshot := some p.class_id }

/-- The per-pupil total: `PupilQuestionScore.mark` summed over the
assessment's scores whose `question_id` is a current question (stale
rows are skipped). -/
def pupilAssessmentTotal (a : Assessment) (st : SyncState) (pid : ℕ) : ℚ :=
  let qids := (st.questions.filter (fun q => q.assessment_id == a.id)).map
    AssessmentQuestionRow.id
  ((st.scores.filter (fun s => decide (s.assessment_id = a.id ∧ s.pupil_id = pid ∧
      s.question_id ∈ qids))).map (fun s => s.mark.getD 0)).sum

/-- One iteration of the `for p in pupils:` loop. -/
def syncStep (cfg : AppConfig) (tcs : List TermConfig) (a : Assessment) (field : RField)
    (st : SyncState) (results : List Result) (p : Pupil) : List Result :=
  let total_mark := pupilAssessmentTotal a st p.id
  if (results.find? (resultKeyMatches a p.id)).isSome then
    updateFirst (resultKeyMatches a p.id) (applyResultWrite cfg tcs a field p total_mark)
      results
  else
    results ++ [applyResultWrite cfg tcs a field p total_mark (blankResult a p)]

/-- Model of `sync_assessment_totals_to_results(assessment_id)`. -/
def sync_assessment_totals_to_results (cfg : AppConfig) (a : Assessment)
    (st : SyncState) : SyncState :=
  let field := result_field_for_paper a.subject (a.paper.getD (PAPERS a.subject).1)
  let pupils := st.pupils.filter (fun p => p.class_id == a.class_id)
  { st with results := pupils.foldl (syncStep cfg st.termConfigs a field st) st.results }

theorem getField_setField (r : Result) (f : RField) (v : Option ℚ) :
    getField (setField r f v) f = v := by
  cases f <;> rfl

theorem applyResultWrite_field (cfg : AppConfig) (tcs : List TermConfig) (a : Assessment)
    (field : RField) (p : Pupil) (t : ℚ) (r : Result) :
    getField (applyResultWrite cfg tcs a field p t r) field = some t := by
  cases field <;> rfl

theorem applyResultWrite_keys (cfg : AppConfig) (tcs : List TermConfig) (a : Assessment)
    (field : RField) (p : Pupil) (t : ℚ) (r : Result) :
    (applyResultWrite cfg tcs a field p t r).pupil_id = r.pupil_id ∧
    (applyResultWrite cfg tcs a field p t r).academic_year_id = r.academic_year_id ∧
    (applyResultWrite cfg tcs a field p t r).term = r.term ∧
    (applyResultWrite cfg tcs a field p t r).subject = r.subject := by
  cases field <;> exact ⟨rfl, rfl, rfl, rfl⟩

theorem mem_updateFirst_of_not_pred (pred : Result → Bool) (f : Result → Result)
    (l : List Result) (r : Result) (hm : r ∈ l) (hp : pred r = false) :
    r ∈ updateFirst pred f l := by
  induction l with
  | nil => cases hm
  | cons x rest ih =>
    rw [updateFirst]
    rcases List.mem_cons.mp hm with rfl | hm2
    · rw [if_neg (by rw [hp]; exact Bool.false_ne_true)]
      exact List.mem_cons_self _ _
    · by_cases hx : pred x = true
      · rw [if_pos hx]
        exact List.mem_cons_of_mem _ hm2
      · rw [if_neg hx]
        exact List.mem_cons_of_mem _ (ih hm2)

theorem updateFirst_mem_of_find (pred : Result → Bool) (f : Result → Result)
    (l : List Result) (r0 : Result) (hf : l.find? pred = some r0) :
    f r0 ∈ updateFirst pred f l := by
  induction l with
  | nil => simp [List.find?] at hf
  | cons x rest ih =>
    rw [updateFirst]
    by_cases hx : pred x = true
    · rw [List.find?_cons_of_pos _ hx] at hf
      rw [if_pos hx, Option.some.inj hf]
      exact List.mem_cons_self _ _
    · rw [List.find?_cons_of_neg _ hx] at hf
      rw [if_neg hx]
      exact List.mem_cons_of_mem _ (ih hf)

/-- Visiting a pupil leaves a row carrying their key and summed total. -/
theorem syncStep_establishes (cfg : AppConfig) (tcs : List TermConfig) (a : Assessment)
    (field : RField) (st : SyncState) (results : List Result) (p : Pupil) :
    ∃ r ∈ syncStep cfg tcs a field st results p,
      resultKeyMatches a p.id r = true ∧
      getField r field = some (pupilAssessmentTotal a st p.id) := by
  unfold syncStep
  by_cases hfind : (results.find? (resultKeyMatches a p.id)).isSome
  · rw [if_pos hfind]
    obtain ⟨r0, hr0⟩ := Option.isSome_iff_exists.mp hfind
    have hpred : resultKeyMatches a p.id r0 = true := List.find?_some hr0
    refine ⟨applyResultWrite cfg tcs a field p (pupilAssessmentTotal a st p.id) r0,
      updateFirst_mem_of_find _ _ _ _ hr0, ?_, applyResultWrite_field _ _ _ _ _ _ _⟩
    obtain ⟨h1, h2, h3, h4⟩ := applyResultWrite_keys cfg tcs a field p
      (pupilAssessmentTotal a st p.id) r0
    unfold resultKeyMatches at hpred ⊢
    rw [h1, h2, h3, h4]
    exact hpred
  · rw [if_neg hfind]
    refine ⟨applyResultWrite cfg tcs a field p (pupilAssessmentTotal a st p.id)
      (blankResult a p), List.mem_append_right _ (List.mem_singleton_self _), ?_,
      applyResultWrite_field _ _ _ _ _ _ _⟩
    obtain ⟨h1, h2, h3, h4⟩ := applyResultWrite_keys cfg tcs a field p
      (pupilAssessmentTotal a st p.id) (blankResult a p)
    unfold resultKeyMatches
    rw [h1, h2, h3, h4]
    simp [blankResult]

/-- Visiting a different pupil does not disturb an existing row. -/
theorem syncStep_preserves (cfg : AppConfig) (tcs : List TermConfig) (a : Assessment)
    (field : RField) (st : SyncState) (results : List Result) (p : Pupil) (r : Result)
    (hm : r ∈ results) (hne : r.pupil_id ≠ p.id) :
    r ∈ syncStep cfg tcs a field st results p := by
  unfold syncStep
  have hpred : resultKeyMatches a p.id r = false := by
    unfold resultKeyMatches
    simp only [decide_eq_false_iff_not]
    intro hcon
    exact hne hcon.1
  by_cases hfind : (results.find? (resultKeyMatches a p.id)).isSome
  · rw [if_pos hfind]
    exact mem_updateFirst_of_not_pred _ _ _ _ hm hpred
  · rw [if_neg hfind]
    exact List.mem_append_left _ hm

theorem syncFold_preserves (cfg : AppConfig) (tcs : List TermConfig) (a : Assessment)
    (field : RField) (st : SyncState) :
    ∀ (ps : List Pupil) (acc : List Result) (r : Result), r ∈ acc →
      (∀ p2 ∈ ps, r.pupil_id ≠ p2.id) →
      r ∈ ps.foldl (syncStep cfg tcs a field st) acc := by
  intro ps
  induction ps with
  | nil => intro acc r hm _; exact hm
  | cons p0 rest ih =>
    intro acc r hm hall
    rw [List.foldl_cons]
    exact ih _ r (syncStep_preserves cfg tcs a field st acc p0 r hm
      (hall p0 (by simp))) (fun p2 hp2 => hall p2 (by simp [hp2]))

theorem syncFold_establishes (cfg : AppConfig) (tcs : List TermConfig) (a : Assessment)
    (field : RField) (st : SyncState) :
    ∀ (ps : List Pupil) (acc : List Result) (p : Pupil), p ∈ ps →
      (ps.map Pupil.id).Nodup →
      ∃ r ∈ ps.foldl (syncStep cfg tcs a field st) acc,
        resultKeyMatches a p.id r = true ∧
        getField r field = some (pupilAssessmentTotal a st p.id) := by
  intro ps
  induction ps with
  | nil => intro acc p hp; cases hp
  | cons p0 rest ih =>
    intro acc p hp hnd
    rw [List.map_cons, List.nodup_cons] at hnd
    rw [List.foldl_cons]
    rcases List.mem_cons.mp hp with rfl | hp2
    · obtain ⟨r, hrm, hkey, hfield⟩ :=
        syncStep_establishes cfg tcs a field st acc p
      refine ⟨r, ?_, hkey, hfield⟩
      apply syncFold_preserves
      · exact hrm
      · intro p2 hp2
        have hrp : r.pupil_id = p.id := by
          unfold resultKeyMatches at hkey
          exact (of_decide_eq_true hkey).1
        rw [hrp]
        intro hcon
        exact hnd.1 (hcon ▸ List.mem_map_of_mem Pupil.id hp2)
    · exact ih _ p hp2 hnd.2

/-! ### Claim C7 -/

/-- C7: after `sync_assessment_totals_to_results`, every pupil currently
in the assessment's class has a `Result` row keyed by
`(pupil, academic year, term, subject)` whose resolved paper field equals
the sum of that pupil's scores over the assessment's current questions
(stale score rows ignored); with no scored questions the sum is `0` and
the field holds `0.0`, not `None`. -/
theorem C7_sync_writes_totals (cfg : AppConfig) (a : Assessment) (st : SyncState)
    (hids : (st.pupils.map Pupil.id).Nodup) :
    ∀ p ∈ st.pupils, p.class_id = a.class_id →
      ∃ r ∈ (sync_assessment_totals_to_results cfg a st).results,
        r.pupil_id = p.id ∧ r.academic_year_id = a.academic_year_id ∧
        r.term = a.term ∧ r.subject = a.subject ∧
        getField r (result_field_for_paper a.subject (a.paper.getD (PAPERS a.subject).1))
          = some (pupilAssessmentTotal a st p.id) := by
  intro p hp hcls
  have hmem : p ∈ st.pupils.filter (fun p2 => p2.class_id == a.class_id) :=
    List.mem_filter.mpr ⟨hp, by simp [hcls]⟩
  have hnd : ((st.pupils.filter (fun p2 => p2.class_id == a.class_id)).map Pupil.id).Nodup :=
    hids.sublist (List.Sublist.map Pupil.id (List.filter_sublist _))
  obtain ⟨r, hrm, hkey, hfield⟩ := syncFold_establishes cfg st.termConfigs a
    (result_field_for_paper a.subject (a.paper.getD (PAPERS a.subject).1)) st
    (st.pupils.filter (fun p2 => p2.class_id == a.class_id)) st.results p hmem hnd
  have hk := of_decide_eq_true hkey
  exact ⟨r, hrm, hk.1, hk.2.1, hk.2.2.1, hk.2.2.2, hfield⟩

/-- Witness for C7: one pupil in the class, one current question, one
stale score (ignored) and one current score of 3 marks. -/
theorem C7_witness :
    (([⟨(7 : ℕ), 4⟩] : List Pupil).map Pupil.id).Nodup ∧
    (⟨7, 4⟩ : Pupil) ∈ ([⟨7, 4⟩] : List Pupil) ∧ (4 : ℕ) = 4 ∧
    ∃ r ∈ (sync_assessment_totals_to_results defaultConfig
        ⟨1, 4, 1, "Autumn", .maths, some "Arithmetic"⟩
        ⟨[⟨7, 4⟩], [⟨21, 1⟩], [⟨1, 7, 21, some 3⟩, ⟨1, 7, 99, some 50⟩], [], []⟩).results,
      r.pupil_id = 7 ∧ r.academic_year_id = 1 ∧ r.term = "Autumn" ∧ r.subject = .maths ∧
      getField r (result_field_for_paper Subject.maths
          ((some "Arithmetic").getD (PAPERS Subject.maths).1))
        = some (pupilAssessmentTotal ⟨1, 4, 1, "Autumn", .maths, some "Arithmetic"⟩
            ⟨[⟨7, 4⟩], [⟨21, 1⟩], [⟨1, 7, 21, some 3⟩, ⟨1, 7, 99, some 50⟩], [], []⟩ 7) :=
  ⟨by simp, by simp, rfl,
   C7_sync_writes_totals defaultConfig ⟨1, 4, 1, "Autumn", .maths, some "Arithmetic"⟩
     ⟨[⟨7, 4⟩], [⟨21, 1⟩], [⟨1, 7, 21, some 3⟩, ⟨1, 7, 99, some 50⟩], [], []⟩
     (by simp) ⟨7, 4⟩ (by simp) rfl⟩

/-! ## TemplateVersioner: `clone_template` (app.py 621-647) and
`gap_template_publish` (app.py 3714-3722)

`title` and the timestamp columns play no part in version numbering or
activation and are omitted.  `version=(source.version or 1) + 1` is
modelled on a non-null integer column: a stored `0` (falsy) is lifted to
`1` before incrementing, like Python's `or`. -/

structure PaperTemplate where
  id : ℕ
  subject : Subject
  paper : String
  academic_year_id : ℕ
  year_group : ℤ
  term : String
  version : ℤ
  is_active : Bool
  deriving DecidableEq

structure PaperTemplateQuestion where
  template_id : ℕ
  number : ℤ
  max_mark : ℚ
  question_type : Option String
  notes : Option String
  strand : Option String
  deriving DecidableEq

structure TemplateState where
  templates : List PaperTemplate
  template_questions : List PaperTemplateQuestion
  nextTemplateId : ℕ
  deriving DecidableEq

/-- The activation scope tuple `(subject, paper, year, year group, term)`. -/
def sameScope (t u : PaperTemplate) : Prop :=
  t.subject = u.subject ∧ t.paper = u.paper ∧ t.academic_year_id = u.academic_year_id ∧
  t.year_group = u.year_group ∧ t.term = u.term

instance (t u : PaperTemplate) : Decidable (sameScope t u) := by
  unfold sameScope; infer_instance

/-- Model of `clone_template(source, make_active)`: insert version
`source.version + 1` in the same scope, deep-copy the questions, and —
only if `make_active` — deactivate the source row.  Returns the new
state together with the created template. -/
def clone_template (st : TemplateState) (source : PaperTemplate) (make_active : Bool) :
    TemplateState × PaperTemplate :=
  let new_t : PaperTemplate :=
    ⟨st.nextTemplateId, source.subject, source.paper, source.academic_year_id,
     source.year_group, source.term,
     (if source.version = 0 then 1 else source.version) + 1, make_active⟩
  let copied := (st.template_questions.filter
    (fun q => q.template_id == source.id)).map (fun q => { q with template_id := new_t.id })
  let templates1 := st.templates ++ [new_t]
  let templates2 :=
    if make_active then
      templates1.map (fun u => if u.id = source.id then { u with is_active := false } else u)
    else templates1
  (⟨templates2, st.template_questions ++ copied, st.nextTemplateId + 1⟩, new_t)

/-- Model of `gap_template_publish(template_id)`: deactivate every other
template in the target's scope, then activate the target.  An unknown id
aborts with 404 before any write. -/
def gap_template_publish (st : TemplateState) (tid : ℕ) : TemplateState :=
  match st.templates.find? (fun u => u.id == tid) with
  | none => st
  | some t =>
    { st with templates := st.templates.map (fun u =>
        if u.id = t.id then { u with is_active := true }
        else if sameScope u t then { u with is_active := false }
        else u) }

/-! ### Claim C6 -/

/-- C6 (amended): `publish` unconditionally leaves its target as the
unique active template of its scope; `clone(source, makeActive=true)`
deactivates only the source, so the new version is the unique active
template of the scope provided no sibling other than the source was
active beforehand (the state also has to hand out a fresh id). -/
theorem C6_publish_unique_clone_conditional (st : TemplateState) (source : PaperTemplate)
    (hsrc : source ∈ st.templates)
    (hfresh : ∀ u ∈ st.templates, u.id ≠ st.nextTemplateId)
    (honly : ∀ u ∈ st.templates, sameScope u source → u.is_active = true →
      u.id = source.id) :
    (∀ (st2 : TemplateState) (tid : ℕ) (t : PaperTemplate),
       st2.templates.find? (fun u => u.id == tid) = some t →
       ∀ u ∈ (gap_template_publish st2 tid).templates, sameScope u t →
         (u.is_active = true ↔ u.id = t.id)) ∧
    ((clone_template st source true).2.is_active = true ∧
     (clone_template st source true).2 ∈ (clone_template st source true).1.templates ∧
     ∀ u ∈ (clone_template st source true).1.templates,
       sameScope u (clone_template st source true).2 →
         (u.is_active = true ↔ u.id = (clone_template st source true).2.id)) := by
  constructor
  · intro st2 tid t hfind u hu hscope
    simp only [gap_template_publish, hfind] at hu
    obtain ⟨u0, hu0, rfl⟩ := List.mem_map.mp hu
    by_cases h1 : u0.id = t.id
    · rw [if_pos h1]
      rw [if_pos h1] at hscope
      simp [h1]
    · rw [if_neg h1]
      rw [if_neg h1] at hscope
      by_cases h2 : sameScope u0 t
      · rw [if_pos h2]
        rw [if_pos h2] at hscope
        simp [h1]
      · rw [if_neg h2]
        rw [if_neg h2] at hscope
        exact absurd hscope h2
  · simp only [clone_template]
    have hsid : source.id ≠ st.nextTemplateId := hfresh source hsrc
    refine ⟨trivial, ?_, ?_⟩
    · rw [if_pos trivial]
      refine List.mem_map.mpr ⟨_, List.mem_append_right _ (List.mem_singleton_self _), ?_⟩
      rw [if_neg (by exact fun hcon => hsid hcon.symm)]
    · intro u hu hscope
      rw [if_pos trivial] at hu
      obtain ⟨u0, hu0, rfl⟩ := List.mem_map.mp hu
      rcases List.mem_append.mp hu0 with hold | hnew
      · by_cases h1 : u0.id = source.id
        · rw [if_pos h1]
          simp only
          constructor
          · intro hcon; cases hcon
          · intro hid
            exfalso
            exact hsid (h1 ▸ hid)
        · rw [if_neg h1]
          rw [if_neg h1] at hscope
          constructor
          · intro hact
            exfalso
            apply h1
            apply honly u0 hold ?_ hact
            obtain ⟨hs1, hs2, hs3, hs4, hs5⟩ := hscope
            exact ⟨hs1, hs2, hs3, hs4, hs5⟩
          · intro hid
            exfalso
            exact hfresh u0 hold hid
      · rcases List.mem_singleton.mp hnew with rfl
        rw [if_neg (by exact fun hcon => hsid hcon.symm)]
        simp

/-- C6 counterexample: with version 1 active and version 2 inactive in
the same scope, `clone_template(version 2, make_active=True)` activates
the new version 3 but deactivates only its source, so versions 1 and 3
are both active in the scope — the invariant is not preserved. -/
theorem C6_counterexample_clone_two_active :
    (clone_template
        ⟨[⟨0, .maths, "Arithmetic", 1, 6, "Autumn", 1, true⟩,
          ⟨1, .maths, "Arithmetic", 1, 6, "Autumn", 2, false⟩], [], 2⟩
        ⟨1, .maths, "Arithmetic", 1, 6, "Autumn", 2, false⟩ true).1.templates
      = [⟨0, .maths, "Arithmetic", 1, 6, "Autumn", 1, true⟩,
         ⟨1, .maths, "Arithmetic", 1, 6, "Autumn", 2, false⟩,
         ⟨2, .maths, "Arithmetic", 1, 6, "Autumn", 3, true⟩] ∧
    sameScope (⟨0, .maths, "Arithmetic", 1, 6, "Autumn", 1, true⟩ : PaperTemplate)
      ⟨2, .maths, "Arithmetic", 1, 6, "Autumn", 3, true⟩ ∧
    (⟨0, .maths, "Arithmetic", 1, 6, "Autumn", 1, true⟩ : PaperTemplate).is_active = true ∧
    (⟨2, .maths, "Arithmetic", 1, 6, "Autumn", 3, true⟩ : PaperTemplate).is_active = true ∧
    (0 : ℕ) ≠ 2 := by
  refine ⟨?_, by refine ⟨rfl, rfl, rfl, rfl, rfl⟩, rfl, rfl, by decide⟩
  decide

/-- Witness for the amended C6 at a concrete input. -/
theorem C6_witness :
    ((⟨1, .maths, "Arithmetic", 1, 6, "Autumn", 2, true⟩ : PaperTemplate) ∈
      [(⟨1, .maths, "Arithmetic", 1, 6, "Autumn", 2, true⟩ : PaperTemplate)]) ∧
    (∀ u ∈ [(⟨1, .maths, "Arithmetic", 1, 6, "Autumn", 2, true⟩ : PaperTemplate)],
      u.id ≠ 2) ∧
    (∀ u ∈ [(⟨1, .maths, "Arithmetic", 1, 6, "Autumn", 2, true⟩ : PaperTemplate)],
      sameScope u ⟨1, .maths, "Arithmetic", 1, 6, "Autumn", 2, true⟩ →
        u.is_active = true → u.id = 1) ∧
    (∀ u ∈ (clone_template
        ⟨[⟨1, .maths, "Arithmetic", 1, 6, "Autumn", 2, true⟩], [], 2⟩
        ⟨1, .maths, "Arithmetic", 1, 6, "Autumn", 2, true⟩ true).1.templates,
      sameScope u (clone_template
        ⟨[⟨1, .maths, "Arithmetic", 1, 6, "Autumn", 2, true⟩], [], 2⟩
        ⟨1, .maths, "Arithmetic", 1, 6, "Autumn", 2, true⟩ true).2 →
        (u.is_active = true ↔ u.id = (clone_template
          ⟨[⟨1, .maths, "Arithmetic", 1, 6, "Autumn", 2, true⟩], [], 2⟩
          ⟨1, .maths, "Arithmetic", 1, 6, "Autumn", 2, true⟩ true).2.id)) :=
  ⟨by decide, by decide, by decide,
   (C6_publish_unique_clone_conditional
     ⟨[⟨1, .maths, "Arithmetic", 1, 6, "Autumn", 2, true⟩], [], 2⟩
     ⟨1, .maths, "Arithmetic", 1, 6, "Autumn", 2, true⟩
     (by decide) (by decide) (by decide)).2.2.2⟩

/-! ## ProgressionEngine: `admin_promote` POST (app.py 4786-4895) and its
helpers `next_year_label_from` (366-379), `get_current_year` (73-77) and
`ensure_single_archive_class` (104-128)

Lists model tables in insertion (id) order.  The model covers the
confirmed POST path: the `confirm_promote` guard and the admin check are
request plumbing that precede any of the modelled logic. -/

structure SchoolClass where
  id : ℕ
  name : String
  year_group : Option ℤ
  is_archived : Bool
  is_archive : Bool
  deriving DecidableEq

structure AcademicYear where
  id : ℕ
  label : String
  is_current : Bool
  deriving DecidableEq

structure PupilClassHistory where
  pupil_id : ℕ
  class_id : ℕ
  academic_year_id : ℕ
  deriving DecidableEq

structure PromoState where
  classes : List SchoolClass
  pupils : List Pupil
  years : List AcademicYear
  history : List PupilClassHistory
  nextClassId : ℕ
  nextYearId : ℕ
  deriving DecidableEq

/-- `live_classes_query`: not archived and not the archive container. -/
def liveClass (c : SchoolClass) : Bool := !c.is_archived && !c.is_archive

/-- `get_current_year`: the first year flagged current, else the one
with the smallest id. -/
def get_current_year (st : PromoState) : Option AcademicYear :=
  match st.years.find? (fun y => y.is_current) with
  | some y => some y
  | none => st.years.head?

/-- Python `str.strip()`. -/
def pyStrip (s : String) : String :=
  ⟨((s.data.dropWhile Char.isWhitespace).reverse.dropWhile Char.isWhitespace).reverse⟩

def digitVal (c : Char) : ℕ := c.toNat - 48

/-- `re.fullmatch(r"(\d{4})\/(\d{2})", raw)`: the parsed year pair. -/
def parseLabel (s : String) : Option (ℕ × ℕ) :=
  match s.data with
  | [a, b, c, d, e, f, g] =>
    if a.isDigit ∧ b.isDigit ∧ c.isDigit ∧ d.isDigit ∧ e = '/' ∧ f.isDigit ∧ g.isDigit then
      some (1000 * digitVal a + 100 * digitVal b + 10 * digitVal c + digitVal d,
        10 * digitVal f + digitVal g)
    else none
  | _ => none

/-- `re.search(r"(\d{4})", raw)`: the first run of four digits. -/
def findFourDigits : List Char → Option ℕ
  | [] => none
  | a :: rest =>
    match rest with
    | b :: c :: d :: _ =>
      if a.isDigit ∧ b.isDigit ∧ c.isDigit ∧ d.isDigit then
        some (1000 * digitVal a + 100 * digitVal b + 10 * digitVal c + digitVal d)
      else findFourDigits rest
    | _ => none

/-- `f"{n:02d}"` for the two-digit slot (a three-digit value stays as
is, exactly like Python's format). -/
def pad2 (n : ℕ) : String := if n < 10 then "0" ++ toString n else toString n

def fmtLabel (a b2 : ℕ) : String := toString a ++ "/" ++ pad2 b2

/-- Model of `next_year_label_from(label)`; `nowYear` stands for
`datetime.utcnow().year` in the fallback. -/
def next_year_label_from (nowYear : ℕ) (label : String) : String :=
  let raw := pyStrip label
  match parseLabel raw with
  | some (s, e) => fmtLabel (s + 1) (e + 1)
  | none =>
    let fallback_start :=
      match findFourDigits raw.data with
      | some v => v + 1
      | none => nowYear
    fmtLabel fallback_start ((fallback_start + 1) % 100)

/-- `func.lower` on a name column, character by character. -/
def lowerName (s : String) : String := ⟨s.data.map Char.toLower⟩

/-- Archive-like rows targeted by `ensure_single_archive_class`. -/
def isArchiveLike (c : SchoolClass) : Bool := c.is_archive || lowerName c.name == "archive"

/-- Model of `ensure_single_archive_class`: normalise the first
archive-like class (by table order) into the canonical Archive and
strip the flags from any others; create the Archive if none exists. -/
def ensure_single_archive_class (st : PromoState) : PromoState × SchoolClass :=
  match (st.classes.filter isArchiveLike).head? with
  | some archive0 =>
    let canonical : SchoolClass := ⟨archive0.id, "Archive", none, true, true⟩
    ({ st with classes := st.classes.map (fun c =>
        if c.id = archive0.id then canonical
        else if isArchiveLike c then
          { c with
            is_archive := false
            is_archived := false
            year_group := (if c.year_group = some 0 then none else c.year_group) }
        else c) }, canonical)
  | none =>
    let archive : SchoolClass := ⟨st.nextClassId, "Archive", none, true, true⟩
    ({ st with classes := st.classes ++ [archive], nextClassId := st.nextClassId + 1 },
     archive)

/-- Lexicographic text order on the underlying characters, modelling the
database's ordering on name columns. -/
def charListLe : List Char → List Char → Bool
  | [], _ => true
  | _ :: _, [] => false
  | a :: as2, b :: bs => if a = b then charListLe as2 bs else decide (a.toNat < b.toNat)

def nameLe (s t : String) : Bool := charListLe s.data t.data

/-- The `ORDER BY year_group ASC, name ASC` comparison (SQLite sorts
nulls first in ascending order). -/
def classOrderLe (c d : SchoolClass) : Bool :=
  match c.year_group, d.year_group with
  | none, none => nameLe c.name d.name
  | none, some _ => true
  | some _, none => false
  | some a, some b2 => if a = b2 then nameLe c.name d.name else decide (a < b2)

def insertByKey (le : SchoolClass → SchoolClass → Bool) (c : SchoolClass) :
    List SchoolClass → List SchoolClass
  | [] => [c]
  | d :: rest => if le c d then c :: d :: rest else d :: insertByKey le c rest

def sortByKey (le : SchoolClass → SchoolClass → Bool) : List SchoolClass → List SchoolClass
  | [] => []
  | c :: rest => insertByKey le c (sortByKey le rest)

/-- The handler's `classes` query: live classes sorted by
`(year_group, name)`. -/
def sortedActiveClasses (st : PromoState) : List SchoolClass :=
  sortByKey classOrderLe (st.classes.filter liveClass)

/-- `classes_by_year[yg]`: the dict comprehension keeps the last class
of the sorted list for each year group. -/
def classesByYear (st : PromoState) (yg : ℤ) : Option SchoolClass :=
  ((sortedActiveClasses st).filter (fun c => c.year_group == some yg)).getLast?

/-- `missing_year_groups = [yg for yg in range(1, 7) if yg not in
classes_by_year]`, reported by the preview and checked by the commit. -/
def missing_year_groups (st : PromoState) : List ℤ :=
  (((List.range 6).map (fun (i : ℕ) => (i : ℤ) + 1)).filter
    (fun yg => (classesByYear st yg).isNone))

/-- `add_history_row`: idempotent insert, skipping an existing triple. -/
def add_history_row (hist : List PupilClassHistory) (pid cid yid : ℕ) :
    List PupilClassHistory :=
  if hist.any (fun h => h.pupil_id == pid && h.class_id == cid &&
      h.academic_year_id == yid) then hist
  else hist ++ [⟨pid, cid, yid⟩]

def classById (classes : List SchoolClass) (cid : ℕ) : Option SchoolClass :=
  classes.find? (fun c => c.id == cid)

/-- The loop accumulator: processed pupils, history rows, moved and
archived counters. -/
abbrev PromoAcc := List Pupil × List PupilClassHistory × ℕ × ℕ

/-- One iteration of the `for pupil in all_pupils:` loop; `.error` models
the mid-loop rollback when a destination class disappeared. -/
def promoteStep (classes2 : List SchoolClass) (byYear : ℤ → Option SchoolClass)
    (archive_id : ℕ) (current_year : Option AcademicYear) (next_year_id : ℕ)
    (acc : PromoAcc) (p : Pupil) : Except Unit PromoAcc :=
  let (ps, hist, moved, archived) := acc
  match classById classes2 p.class_id with
  | none => .ok (ps ++ [p], hist, moved, archived)
  | some k =>
    match k.year_group with
    | none => .ok (ps ++ [p], hist, moved, archived)
    | some yg =>
      let hist1 := match current_year with
        | some cy => add_history_row hist p.id k.id cy.id
        | none => hist
      if yg = 6 then
        .ok (ps ++ [{ p with class_id := archive_id }],
          add_history_row hist1 p.id archive_id next_year_id, moved, archived + 1)
      else if 1 ≤ yg ∧ yg ≤ 5 then
        match byYear (yg + 1) with
        | none => .error ()
        | some target =>
          .ok (ps ++ [{ p with class_id := target.id }],
            add_history_row hist1 p.id target.id next_year_id, moved + 1, archived)
      else .ok (ps ++ [p], hist1, moved, archived)

/-- Bulk `is_current = False` on every year, then `True` on the first
row carrying the target label (the object `.first()` returned). -/
def markCurrentFirst (lbl : String) : List AcademicYear → List AcademicYear
  | [] => []
  | y :: rest =>
    if y.label = lbl then
      { y with is_current := true } :: rest.map (fun z => { z with is_current := false })
    else { y with is_current := false } :: markCurrentFirst lbl rest

inductive PromoOutcome where
  | aborted_missing
  | aborted_mid_loop
  | committed (moved archived : ℕ) (next_label : String)
  deriving DecidableEq

structure PromoResult where
  state : PromoState
  outcome : PromoOutcome
  deriving DecidableEq

/-- Model of the confirmed `admin_promote` POST.  Mirrors the source
order: preview data and the missing check come from the pre-state; the
next academic year is resolved or created and made solely current; the
archive class is normalised; then every pupil is reassigned.  A missing
destination discovered mid-loop discards only the loop's writes (the
year and archive changes were already flushed by the inner commit of
`ensure_single_archive_class`). -/
def commitPromotion (nowYear : ℕ) (st : PromoState) : PromoResult :=
  let byYear := classesByYear st
  let current_year := get_current_year st
  if missing_year_groups st ≠ [] then ⟨st, .aborted_missing⟩
  else
    let source_label := match current_year with
      | some y => y.label
      | none => "2025/26"
    let next_label := next_year_label_from nowYear source_label
    let resolved : PromoState × ℕ :=
      match st.years.find? (fun y => y.label == next_label) with
      | some y => ({ st with years := markCurrentFirst next_label st.years }, y.id)
      | none =>
        ({ st with
            years := st.years.map (fun z => { z with is_current := false })
              ++ [⟨st.nextYearId, next_label, true⟩],
            nextYearId := st.nextYearId + 1 }, st.nextYearId)
    let st1 := resolved.1
    let next_year_id := resolved.2
    let ensured := ensure_single_archive_class st1
    let st2 := ensured.1
    let archive := ensured.2
    match st2.pupils.foldlM
        (promoteStep st2.classes byYear archive.id current_year next_year_id)
        ([], st2.history, 0, 0) with
    | .error _ => ⟨st2, .aborted_mid_loop⟩
    | .ok (ps, hist, moved, archived) =>
      ⟨{ st2 with pupils := ps, history := hist }, .committed moved archived next_label⟩

theorem mem_insertByKey (le : SchoolClass → SchoolClass → Bool) (c x : SchoolClass)
    (l : List SchoolClass) : x ∈ insertByKey le c l ↔ x = c ∨ x ∈ l := by
  induction l with
  | nil => simp [insertByKey]
  | cons d rest ih =>
    rw [insertByKey]
    by_cases h : le c d = true
    · rw [if_pos h]
      simp
    · rw [if_neg h]
      simp only [List.mem_cons, ih]
      tauto

theorem mem_sortByKey (le : SchoolClass → SchoolClass → Bool) (x : SchoolClass)
    (l : List SchoolClass) : x ∈ sortByKey le l ↔ x ∈ l := by
  induction l with
  | nil => simp [sortByKey]
  | cons d rest ih =>
    rw [sortByKey, mem_insertByKey]
    simp [ih]

theorem mem_sortedActiveClasses (st : PromoState) (x : SchoolClass) :
    x ∈ sortedActiveClasses st ↔ x ∈ st.classes ∧ liveClass x = true := by
  unfold sortedActiveClasses
  rw [mem_sortByKey, List.mem_filter]

/-- A `classes_by_year` hit is a live class of that year group. -/
theorem classesByYear_mem (st : PromoState) (yg : ℤ) (c : SchoolClass)
    (h : classesByYear st yg = some c) :
    c ∈ st.classes ∧ liveClass c = true ∧ c.year_group = some yg := by
  unfold classesByYear at h
  have hm : c ∈ (sortedActiveClasses st).filter (fun d => d.year_group == some yg) := by
    rcases hl : (sortedActiveClasses st).filter (fun d => d.year_group == some yg) with _ | ⟨x, xs⟩
    · rw [hl] at h
      cases h
    · rw [hl] at h
      rw [List.getLast?_eq_getLast (x::xs) (by simp)] at h
      have hinj := Option.some.inj h
      rw [← hinj, hl]
      exact List.getLast_mem _
  rw [List.mem_filter] at hm
  obtain ⟨hm1, hm2⟩ := hm
  rw [mem_sortedActiveClasses] at hm1
  refine ⟨hm1.1, hm1.2, ?_⟩
  exact eq_of_beq hm2

/-- A live class of the year group guarantees a `classes_by_year` hit. -/
theorem classesByYear_isSome (st : PromoState) (yg : ℤ) (c : SchoolClass)
    (hm : c ∈ st.classes) (hl : liveClass c = true) (hy : c.year_group = some yg) :
    (classesByYear st yg).isSome = true := by
  unfold classesByYear
  have hmem : c ∈ (sortedActiveClasses st).filter (fun d => d.year_group == some yg) := by
    rw [List.mem_filter, mem_sortedActiveClasses]
    exact ⟨⟨hm, hl⟩, by rw [hy]; simp⟩
  rcases hfin : ((sortedActiveClasses st).filter
      (fun d => d.year_group == some yg)).getLast? with _ | y
  · rw [List.getLast?_eq_none_iff] at hfin
    rw [hfin] at hmem
    cases hmem
  · rw [hfin]
    rfl

/-! ### Claim C4 -/

/-- C4: `missing_year_groups` contains exactly the year groups `1..6`
without a live class, and a non-empty missing list makes the confirmed
commit abort with the state unchanged — no pupil reassignment, no
history insert, no academic-year change. -/
theorem C4_missing_year_groups_abort (nowYear : ℕ) (st : PromoState) :
    (∀ yg : ℤ, yg ∈ missing_year_groups st ↔
      (1 ≤ yg ∧ yg ≤ 6 ∧ ¬ ∃ c ∈ st.classes, liveClass c = true ∧ c.year_group = some yg)) ∧
    (missing_year_groups st ≠ [] →
      commitPromotion nowYear st = ⟨st, .aborted_missing⟩) := by
  constructor
  · intro yg
    unfold missing_year_groups
    rw [List.mem_filter]
    constructor
    · rintro ⟨hrange, hnone⟩
      simp only [List.mem_map, List.mem_range] at hrange
      obtain ⟨i, hi, rfl⟩ := hrange
      refine ⟨by omega, by omega, ?_⟩
      rintro ⟨c, hc, hl, hy⟩
      have := classesByYear_isSome st _ c hc hl hy
      rw [Option.isNone_iff_eq_none] at hnone
      rw [hnone] at this
      cases this
    · rintro ⟨h1, h2, hno⟩
      constructor
      · simp only [List.mem_map, List.mem_range]
        refine ⟨(yg - 1).toNat, by omega, by omega⟩
      · rcases hv : classesByYear st yg with hnone | c
        · rfl
        · exfalso
          obtain ⟨hc, hl, hy⟩ := classesByYear_mem st yg c hv
          exact hno ⟨c, hc, hl, hy⟩
  · intro hmiss
    simp only [commitPromotion]
    rw [if_pos hmiss]

/-- Witness for C4: the Year-4 class is missing. -/
theorem C4_witness :
    missing_year_groups
      ⟨[⟨1, "Y1", some 1, false, false⟩, ⟨2, "Y2", some 2, false, false⟩,
        ⟨3, "Y3", some 3, false, false⟩, ⟨5, "Y5", some 5, false, false⟩,
        ⟨6, "Y6", some 6, false, false⟩, ⟨7, "Archive", none, true, true⟩],
       [⟨100, 6⟩], [⟨1, "2025/26", true⟩], [], 8, 2⟩ ≠ [] ∧
    (4 : ℤ) ∈ missing_year_groups
      ⟨[⟨1, "Y1", some 1, false, false⟩, ⟨2, "Y2", some 2, false, false⟩,
        ⟨3, "Y3", some 3, false, false⟩, ⟨5, "Y5", some 5, false, false⟩,
        ⟨6, "Y6", some 6, false, false⟩, ⟨7, "Archive", none, true, true⟩],
       [⟨100, 6⟩], [⟨1, "2025/26", true⟩], [], 8, 2⟩ ∧
    commitPromotion 2025
      ⟨[⟨1, "Y1", some 1, false, false⟩, ⟨2, "Y2", some 2, false, false⟩,
        ⟨3, "Y3", some 3, false, false⟩, ⟨5, "Y5", some 5, false, false⟩,
        ⟨6, "Y6", some 6, false, false⟩, ⟨7, "Archive", none, true, true⟩],
       [⟨100, 6⟩], [⟨1, "2025/26", true⟩], [], 8, 2⟩
      = ⟨⟨[⟨1, "Y1", some 1, false, false⟩, ⟨2, "Y2", some 2, false, false⟩,
           ⟨3, "Y3", some 3, false, false⟩, ⟨5, "Y5", some 5, false, false⟩,
           ⟨6, "Y6", some 6, false, false⟩, ⟨7, "Archive", none, true, true⟩],
          [⟨100, 6⟩], [⟨1, "2025/26", true⟩], [], 8, 2⟩, .aborted_missing⟩ :=
  ⟨by decide, by decide,
   (C4_missing_year_groups_abort 2025
     ⟨[⟨1, "Y1", some 1, false, false⟩, ⟨2, "Y2", some 2, false, false⟩,
       ⟨3, "Y3", some 3, false, false⟩, ⟨5, "Y5", some 5, false, false⟩,
       ⟨6, "Y6", some 6, false, false⟩, ⟨7, "Archive", none, true, true⟩],
      [⟨100, 6⟩], [⟨1, "2025/26", true⟩], [], 8, 2⟩).2 (by decide)⟩

/-! ### History bookkeeping lemmas for the promotion loop -/

theorem add_history_row_of_mem (hist : List PupilClassHistory) (pid cid yid : ℕ)
    (h : (⟨pid, cid, yid⟩ : PupilClassHistory) ∈ hist) :
    add_history_row hist pid cid yid = hist := by
  unfold add_history_row
  rw [if_pos]
  rw [List.any_eq_true]
  exact ⟨_, h, by simp⟩

theorem mem_add_history_row_self (hist : List PupilClassHistory) (pid cid yid : ℕ) :
    (⟨pid, cid, yid⟩ : PupilClassHistory) ∈ add_history_row hist pid cid yid := by
  unfold add_history_row
  by_cases hc : hist.any (fun h => h.pupil_id == pid && h.class_id == cid &&
      h.academic_year_id == yid) = true
  · rw [if_pos hc]
    rw [List.any_eq_true] at hc
    obtain ⟨x, hx, hbeq⟩ := hc
    simp only [Bool.and_eq_true, beq_iff_eq] at hbeq
    have hxeq : x = ⟨pid, cid, yid⟩ := by
      cases x
      simp_all
    rw [← hxeq]
    exact hx
  · rw [if_neg hc]
    simp

theorem mem_add_history_row_mono (hist : List PupilClassHistory) (pid cid yid : ℕ)
    (t : PupilClassHistory) (h : t ∈ hist) : t ∈ add_history_row hist pid cid yid := by
  unfold add_history_row
  by_cases hc : hist.any (fun h => h.pupil_id == pid && h.class_id == cid &&
      h.academic_year_id == yid) = true
  · rw [if_pos hc]
    exact h
  · rw [if_neg hc]
    exact List.mem_append_left _ h

theorem add_history_row_nodup (hist : List PupilClassHistory) (pid cid yid : ℕ)
    (h : hist.Nodup) : (add_history_row hist pid cid yid).Nodup := by
  unfold add_history_row
  by_cases hc : hist.any (fun h => h.pupil_id == pid && h.class_id == cid &&
      h.academic_year_id == yid) = true
  · rw [if_pos hc]
    exact h
  · rw [if_neg hc]
    rw [List.nodup_append]
    refine ⟨h, List.nodup_singleton _, ?_⟩
    intro x hx hx2
    rw [List.mem_singleton] at hx2
    subst hx2
    apply hc
    rw [List.any_eq_true]
    exact ⟨_, hx, by simp⟩

theorem promoteStep_hist_mono (classes2 : List SchoolClass)
    (byYear : ℤ → Option SchoolClass) (aid : ℕ) (cyo : Option AcademicYear) (nyid : ℕ)
    (acc acc2 : PromoAcc) (p : Pupil)
    (h : promoteStep classes2 byYear aid cyo nyid acc p = .ok acc2)
    (t : PupilClassHistory) (ht : t ∈ acc.2.1) : t ∈ acc2.2.1 := by
  obtain ⟨ps, hist, moved, archived⟩ := acc
  unfold promoteStep at h
  rcases hcls : classById classes2 p.class_id with _ | k
  · rw [hcls] at h
    cases h
    exact ht
  · rw [hcls] at h
    simp only at h
    rcases hyg : k.year_group with _ | yg
    · rw [hyg] at h
      simp only at h
      cases h
      exact ht
    · rw [hyg] at h
      simp only at h
      have hmono1 : t ∈ (match cyo with
          | some cy => add_history_row hist p.id k.id cy.id
          | none => hist) := by
        rcases cyo with _ | cy
        · exact ht
        · exact mem_add_history_row_mono _ _ _ _ _ ht
      by_cases h6 : yg = 6
      · rw [if_pos h6] at h
        cases h
        exact mem_add_history_row_mono _ _ _ _ _ hmono1
      · rw [if_neg h6] at h
        by_cases h15 : 1 ≤ yg ∧ yg ≤ 5
        · rw [if_pos h15] at h
          rcases hby : byYear (yg + 1) with _ | target
          · rw [hby] at h
            cases h
          · rw [hby] at h
            cases h
            exact mem_add_history_row_mono _ _ _ _ _ hmono1
        · rw [if_neg h15] at h
          cases h
          exact hmono1

theorem promoteStep_hist_nodup (classes2 : List SchoolClass)
    (byYear : ℤ → Option SchoolClass) (aid : ℕ) (cyo : Option AcademicYear) (nyid : ℕ)
    (acc acc2 : PromoAcc) (p : Pupil)
    (h : promoteStep classes2 byYear aid cyo nyid acc p = .ok acc2)
    (hn : acc.2.1.Nodup) : acc2.2.1.Nodup := by
  obtain ⟨ps, hist, moved, archived⟩ := acc
  unfold promoteStep at h
  rcases hcls : classById classes2 p.class_id with _ | k
  · rw [hcls] at h
    cases h
    exact hn
  · rw [hcls] at h
    simp only at h
    rcases hyg : k.year_group with _ | yg
    · rw [hyg] at h
      simp only at h
      cases h
      exact hn
    · rw [hyg] at h
      simp only at h
      have hnd1 : (match cyo with
          | some cy => add_history_row hist p.id k.id cy.id
          | none => hist).Nodup := by
        rcases cyo with _ | cy
        · exact hn
        · exact add_history_row_nodup _ _ _ _ hn
      by_cases h6 : yg = 6
      · rw [if_pos h6] at h
        cases h
        exact add_history_row_nodup _ _ _ _ hnd1
      · rw [if_neg h6] at h
        by_cases h15 : 1 ≤ yg ∧ yg ≤ 5
        · rw [if_pos h15] at h
          rcases hby : byYear (yg + 1) with _ | target
          · rw [hby] at h
            cases h
          · rw [hby] at h
            cases h
            exact add_history_row_nodup _ _ _ _ hnd1
        · rw [if_neg h15] at h
          cases h
          exact hnd1

theorem promoFold_hist_mono (classes2 : List SchoolClass)
    (byYear : ℤ → Option SchoolClass) (aid : ℕ) (cyo : Option AcademicYear) (nyid : ℕ)
    (l : List Pupil) (acc accF : PromoAcc)
    (h : l.foldlM (promoteStep classes2 byYear aid cyo nyid) acc = .ok accF)
    (t : PupilClassHistory) (ht : t ∈ acc.2.1) : t ∈ accF.2.1 := by
  induction l generalizing acc with
  | nil =>
    simp only [List.foldlM_nil] at h
    cases h
    exact ht
  | cons q rest ih =>
    rw [List.foldlM_cons] at h
    rcases hstep : promoteStep classes2 byYear aid cyo nyid acc q with e | acc1
    · rw [hstep] at h
      cases h
    · rw [hstep] at h
      replace h : rest.foldlM (promoteStep classes2 byYear aid cyo nyid) acc1 = .ok accF := h
      exact ih acc1 h (promoteStep_hist_mono _ _ _ _ _ _ _ _ hstep t ht)

theorem promoFold_hist_nodup (classes2 : List SchoolClass)
    (byYear : ℤ → Option SchoolClass) (aid : ℕ) (cyo : Option AcademicYear) (nyid : ℕ)
    (l : List Pupil) (acc accF : PromoAcc)
    (h : l.foldlM (promoteStep classes2 byYear aid cyo nyid) acc = .ok accF)
    (hn : acc.2.1.Nodup) : accF.2.1.Nodup := by
  induction l generalizing acc with
  | nil =>
    simp only [List.foldlM_nil] at h
    cases h
    exact hn
  | cons q rest ih =>
    rw [List.foldlM_cons] at h
    rcases hstep : promoteStep classes2 byYear aid cyo nyid acc q with e | acc1
    · rw [hstep] at h
      cases h
    · rw [hstep] at h
      replace h : rest.foldlM (promoteStep classes2 byYear aid cyo nyid) acc1 = .ok accF := h
      exact ih acc1 h (promoteStep_hist_nodup _ _ _ _ _ _ _ _ hstep hn)

/-- The loop body records the (pupil, current class, ending year) triple
whenever the pupil's class resolves with a concrete year group. -/
theorem promoteStep_records (classes2 : List SchoolClass)
    (byYear : ℤ → Option SchoolClass) (aid : ℕ) (cy : AcademicYear) (nyid : ℕ)
    (acc acc2 : PromoAcc) (p : Pupil) (k : SchoolClass) (yg : ℤ)
    (hk : classById classes2 p.class_id = some k) (hyg : k.year_group = some yg)
    (h : promoteStep classes2 byYear aid (some cy) nyid acc p = .ok acc2) :
    (⟨p.id, k.id, cy.id⟩ : PupilClassHistory) ∈ acc2.2.1 := by
  obtain ⟨ps, hist, moved, archived⟩ := acc
  unfold promoteStep at h
  rw [hk] at h
  simp only at h
  rw [hyg] at h
  simp only at h
  have hmem1 : (⟨p.id, k.id, cy.id⟩ : PupilClassHistory) ∈
      add_history_row hist p.id k.id cy.id := mem_add_history_row_self _ _ _ _
  by_cases h6 : yg = 6
  · rw [if_pos h6] at h
    cases h
    exact mem_add_history_row_mono _ _ _ _ _ hmem1
  · rw [if_neg h6] at h
    by_cases h15 : 1 ≤ yg ∧ yg ≤ 5
    · rw [if_pos h15] at h
      rcases hby : byYear (yg + 1) with _ | target
      · rw [hby] at h
        cases h
      · rw [hby] at h
        cases h
        exact mem_add_history_row_mono _ _ _ _ _ hmem1
    · rw [if_neg h15] at h
      cases h
      exact hmem1

theorem promoFold_records (classes2 : List SchoolClass)
    (byYear : ℤ → Option SchoolClass) (aid : ℕ) (cy : AcademicYear) (nyid : ℕ)
    (l : List Pupil) (acc accF : PromoAcc) (p : Pupil) (k : SchoolClass) (yg : ℤ)
    (hp : p ∈ l)
    (hk : classById classes2 p.class_id = some k) (hyg : k.year_group = some yg)
    (h : l.foldlM (promoteStep classes2 byYear aid (some cy) nyid) acc = .ok accF) :
    (⟨p.id, k.id, cy.id⟩ : PupilClassHistory) ∈ accF.2.1 := by
  induction l generalizing acc with
  | nil => cases hp
  | cons q rest ih =>
    rw [List.foldlM_cons] at h
    rcases hstep : promoteStep classes2 byYear aid (some cy) nyid acc q with e | acc1
    · rw [hstep] at h
      cases h
    · rw [hstep] at h
      replace h : rest.foldlM (promoteStep classes2 byYear aid (some cy) nyid) acc1 = .ok accF := h
      rcases List.mem_cons.mp hp with rfl | hrest
      · exact promoFold_hist_mono _ _ _ _ _ _ _ _ h _
          (promoteStep_records _ _ _ _ _ _ _ _ _ _ hk hyg hstep)
      · exact ih acc1 hrest h

theorem ensure_archive_pupils (st : PromoState) :
    (ensure_single_archive_class st).1.pupils = st.pupils := by
  unfold ensure_single_archive_class
  rcases h : (st.classes.filter isArchiveLike).head? with _ | c <;> simp

theorem ensure_archive_history (st : PromoState) :
    (ensure_single_archive_class st).1.history = st.history := by
  unfold ensure_single_archive_class
  rcases h : (st.classes.filter isArchiveLike).head? with _ | c <;> simp

theorem ensure_archive_years (st : PromoState) :
    (ensure_single_archive_class st).1.years = st.years := by
  unfold ensure_single_archive_class
  rcases h : (st.classes.filter isArchiveLike).head? with _ | c <;> simp

/-- A committed promotion is exactly a successful pupil-loop fold over the
pre-state pupils, starting from the pre-state history. -/
theorem commitPromotion_committed_spec (nowYear : ℕ) (st : PromoState) (m a : ℕ) (lbl : String)
    (hout : (commitPromotion nowYear st).outcome = .committed m a lbl) :
    ∃ (aid nyid : ℕ) (accF : PromoAcc),
      st.pupils.foldlM (promoteStep (commitPromotion nowYear st).state.classes
        (classesByYear st) aid (get_current_year st) nyid) ([], st.history, 0, 0) = .ok accF ∧
      (commitPromotion nowYear st).state.history = accF.2.1 := by
  simp only [commitPromotion] at hout ⊢
  by_cases hmiss : missing_year_groups st ≠ []
  · rw [if_pos hmiss] at hout
    exact PromoOutcome.noConfusion hout
  · rw [if_neg hmiss] at hout ⊢
    set nl := next_year_label_from nowYear (match get_current_year st with
      | some y => y.label
      | none => "2025/26") with hnl
    rcases hfind : st.years.find? (fun y => y.label == nl) with _ | y0
    · rw [hfind] at hout ⊢
      simp only at hout ⊢
      simp only [ensure_archive_pupils, ensure_archive_history] at hout ⊢
      split at hout
      · exact PromoOutcome.noConfusion hout
      case _ ps hist mv av heq =>
        exact ⟨_, _, _, heq, rfl⟩
    · rw [hfind] at hout ⊢
      simp only at hout ⊢
      simp only [ensure_archive_pupils, ensure_archive_history] at hout ⊢
      split at hout
      · exact PromoOutcome.noConfusion hout
      case _ ps hist mv av heq =>
        exact ⟨_, _, _, heq, rfl⟩

/-- The idempotent insert keeps the history table free of duplicates on
every code path of the commit. -/
theorem commitPromotion_history_nodup (nowYear : ℕ) (st : PromoState)
    (h : st.history.Nodup) : (commitPromotion nowYear st).state.history.Nodup := by
  simp only [commitPromotion]
  by_cases hmiss : missing_year_groups st ≠ []
  · rw [if_pos hmiss]
    exact h
  · rw [if_neg hmiss]
    set nl := next_year_label_from nowYear (match get_current_year st with
      | some y => y.label
      | none => "2025/26") with hnl
    rcases hfind : st.years.find? (fun y => y.label == nl) with _ | y0
    · rw [hfind]
      simp only
      simp only [ensure_archive_pupils, ensure_archive_history]
      split
      · simpa [ensure_archive_history] using h
      case _ ps hist mv av heq =>
        exact promoFold_hist_nodup _ _ _ _ _ _ _ _ heq h
    · rw [hfind]
      simp only
      simp only [ensure_archive_pupils, ensure_archive_history]
      split
      · simpa [ensure_archive_history] using h
      case _ ps hist mv av heq =>
        exact promoFold_hist_nodup _ _ _ _ _ _ _ _ heq h

/-! ### Claim C5 -/

/-- A state whose only pupil already sits in the Archive container. -/
def promoArchivePupilState : PromoState :=
  ⟨[⟨1, "Y1", some 1, false, false⟩, ⟨2, "Y2", some 2, false, false⟩,
    ⟨3, "Y3", some 3, false, false⟩, ⟨4, "Y4", some 4, false, false⟩,
    ⟨5, "Y5", some 5, false, false⟩, ⟨6, "Y6", some 6, false, false⟩,
    ⟨7, "Archive", none, true, true⟩],
   [⟨100, 7⟩], [⟨1, "2025/26", true⟩], [], 8, 2⟩

/-- C5 counterexample: the loop `continue`s past any pupil whose class has
`year_group` null — here pupil 100 in the Archive class — so the commit
succeeds yet records no history row at all for that pupil, against the
spec's "for every pupil". -/
theorem C5_counterexample_archive_pupil_no_history :
    (⟨100, 7⟩ : Pupil) ∈ promoArchivePupilState.pupils ∧
    get_current_year promoArchivePupilState = some ⟨1, "2025/26", true⟩ ∧
    classById promoArchivePupilState.classes 7 = some ⟨7, "Archive", none, true, true⟩ ∧
    (commitPromotion 2025 promoArchivePupilState).outcome
      = PromoOutcome.committed 0 0 "2026/27" ∧
    (commitPromotion 2025 promoArchivePupilState).state.history = [] := by
  decide

/-- C5 (amended): on a committed run, a pupil whose class resolves with a
non-null year group gets the (pupil, class, ending year) history row;
`add_history_row` skips an already-present triple; and the commit never
introduces duplicate history rows. -/
theorem C5_history_recorded_and_idempotent (nowYear : ℕ) (st : PromoState)
    (p : Pupil) (cy : AcademicYear) (k : SchoolClass) (yg : ℤ) (m a : ℕ) (lbl : String)
    (hout : (commitPromotion nowYear st).outcome = PromoOutcome.committed m a lbl)
    (hp : p ∈ st.pupils)
    (hcy : get_current_year st = some cy)
    (hk : classById (commitPromotion nowYear st).state.classes p.class_id = some k)
    (hyg : k.year_group = some yg) :
    (⟨p.id, k.id, cy.id⟩ : PupilClassHistory) ∈ (commitPromotion nowYear st).state.history ∧
    (∀ (hist : List PupilClassHistory) (pid cid yid : ℕ),
      (⟨pid, cid, yid⟩ : PupilClassHistory) ∈ hist →
      add_history_row hist pid cid yid = hist) ∧
    (∀ st2 : PromoState, st2.history.Nodup →
      (commitPromotion nowYear st2).state.history.Nodup) := by
  refine ⟨?_, fun hist pid cid yid hm => add_history_row_of_mem hist pid cid yid hm,
    fun st2 hnd => commitPromotion_history_nodup nowYear st2 hnd⟩
  obtain ⟨aid, nyid, accF, hfold, hhist⟩ :=
    commitPromotion_committed_spec nowYear st m a lbl hout
  rw [hhist]
  rw [hcy] at hfold
  exact promoFold_records _ _ _ _ _ _ _ _ _ _ _ hp hk hyg hfold

/-- A state whose only pupil sits in the Year 6 class. -/
def promoYearSixState : PromoState :=
  ⟨[⟨1, "Y1", some 1, false, false⟩, ⟨2, "Y2", some 2, false, false⟩,
    ⟨3, "Y3", some 3, false, false⟩, ⟨4, "Y4", some 4, false, false⟩,
    ⟨5, "Y5", some 5, false, false⟩, ⟨6, "Y6", some 6, false, false⟩,
    ⟨7, "Archive", none, true, true⟩],
   [⟨100, 6⟩], [⟨1, "2025/26", true⟩], [], 8, 2⟩

/-- Witness for C5: the Year-6 pupil's history row is recorded. -/
theorem C5_witness :
    (commitPromotion 2025 promoYearSixState).outcome = PromoOutcome.committed 0 1 "2026/27" ∧
    (⟨100, 6⟩ : Pupil) ∈ promoYearSixState.pupils ∧
    get_current_year promoYearSixState = some ⟨1, "2025/26", true⟩ ∧
    classById (commitPromotion 2025 promoYearSixState).state.classes 6
      = some ⟨6, "Y6", some 6, false, false⟩ ∧
    (⟨100, 6, 1⟩ : PupilClassHistory) ∈ (commitPromotion 2025 promoYearSixState).state.history :=
  ⟨by decide, by decide, by decide, by decide,
   (C5_history_recorded_and_idempotent 2025 promoYearSixState ⟨100, 6⟩ ⟨1, "2025/26", true⟩
     ⟨6, "Y6", some 6, false, false⟩ 6 0 1 "2026/27" (by decide) (by decide) (by decide)
     (by decide) (by decide)).1⟩

/-! ### Pupil reassignment lemmas for the promotion loop -/

/-- The class the loop assigns a pupil to, read off the loop body. -/
def assignPupil (classes2 : List SchoolClass) (byYear : ℤ → Option SchoolClass)
    (aid : ℕ) (p : Pupil) : Pupil :=
  match classById classes2 p.class_id with
  | none => p
  | some k =>
    match k.year_group with
    | none => p
    | some yg =>
      if yg = 6 then ⟨p.id, aid⟩
      else if 1 ≤ yg ∧ yg ≤ 5 then
        match byYear (yg + 1) with
        | none => p
        | some target => ⟨p.id, target.id⟩
      else p

theorem assignPupil_six (classes2 : List SchoolClass) (byYear : ℤ → Option SchoolClass)
    (aid : ℕ) (p : Pupil) (k : SchoolClass)
    (hcls : classById classes2 p.class_id = some k) (hyg : k.year_group = some 6) :
    assignPupil classes2 byYear aid p = ⟨p.id, aid⟩ := by
  unfold assignPupil
  rw [hcls]
  simp only
  rw [hyg]
  simp

theorem assignPupil_mid (classes2 : List SchoolClass) (byYear : ℤ → Option SchoolClass)
    (aid : ℕ) (p : Pupil) (k : SchoolClass) (yg : ℤ) (target : SchoolClass)
    (hcls : classById classes2 p.class_id = some k) (hyg : k.year_group = some yg)
    (h1 : 1 ≤ yg) (h5 : yg ≤ 5) (hby : byYear (yg + 1) = some target) :
    assignPupil classes2 byYear aid p = ⟨p.id, target.id⟩ := by
  unfold assignPupil
  rw [hcls]
  simp only
  rw [hyg]
  simp only
  rw [if_neg (by omega), if_pos ⟨h1, h5⟩, hby]

theorem assignPupil_id (classes2 : List SchoolClass) (byYear : ℤ → Option SchoolClass)
    (aid : ℕ) (p : Pupil) : (assignPupil classes2 byYear aid p).id = p.id := by
  unfold assignPupil
  rcases hcls : classById classes2 p.class_id with _ | k
  · rfl
  · simp only
    rcases hyg : k.year_group with _ | yg
    · rfl
    · simp only
      by_cases h6 : yg = 6
      · rw [if_pos h6]
      · rw [if_neg h6]
        by_cases h15 : 1 ≤ yg ∧ yg ≤ 5
        · rw [if_pos h15]
          rcases hby : byYear (yg + 1) with _ | target
          · rfl
          · rfl
        · rw [if_neg h15]

theorem promoteStep_pupils (classes2 : List SchoolClass)
    (byYear : ℤ → Option SchoolClass) (aid : ℕ) (cyo : Option AcademicYear) (nyid : ℕ)
    (acc acc2 : PromoAcc) (p : Pupil)
    (h : promoteStep classes2 byYear aid cyo nyid acc p = .ok acc2) :
    acc2.1 = acc.1 ++ [assignPupil classes2 byYear aid p] := by
  obtain ⟨ps, hist, moved, archived⟩ := acc
  unfold promoteStep at h
  unfold assignPupil
  rcases hcls : classById classes2 p.class_id with _ | k
  · rw [hcls] at h
    cases h
    rfl
  · rw [hcls] at h
    simp only at h ⊢
    rcases hyg : k.year_group with _ | yg
    · rw [hyg] at h
      simp only at h
      cases h
      rfl
    · rw [hyg] at h
      simp only at h ⊢
      by_cases h6 : yg = 6
      · rw [if_pos h6] at h ⊢
        cases h
        rfl
      · rw [if_neg h6] at h ⊢
        by_cases h15 : 1 ≤ yg ∧ yg ≤ 5
        · rw [if_pos h15] at h ⊢
          rcases hby : byYear (yg + 1) with _ | target
          · rw [hby] at h
            cases h
          · rw [hby] at h
            cases h
            rfl
        · rw [if_neg h15] at h ⊢
          cases h
          rfl

theorem promoFold_pupils (classes2 : List SchoolClass)
    (byYear : ℤ → Option SchoolClass) (aid : ℕ) (cyo : Option AcademicYear) (nyid : ℕ)
    (l : List Pupil) (acc accF : PromoAcc)
    (h : l.foldlM (promoteStep classes2 byYear aid cyo nyid) acc = .ok accF) :
    accF.1 = acc.1 ++ l.map (assignPupil classes2 byYear aid) := by
  induction l generalizing acc with
  | nil =>
    simp only [List.foldlM_nil] at h
    cases h
    simp
  | cons q rest ih =>
    rw [List.foldlM_cons] at h
    rcases hstep : promoteStep classes2 byYear aid cyo nyid acc q with e | acc1
    · rw [hstep] at h
      cases h
    · rw [hstep] at h
      replace h : rest.foldlM (promoteStep classes2 byYear aid cyo nyid) acc1 = .ok accF := h
      rw [ih acc1 h, promoteStep_pupils _ _ _ _ _ _ _ _ hstep]
      simp

theorem filter_current_allFalse (l : List AcademicYear) :
    (l.map (fun z => { z with is_current := false })).filter (fun y => y.is_current) = [] := by
  induction l with
  | nil => rfl
  | cons z rest ih => simpa [List.filter_cons] using ih

/-- Bulk-false-then-flag leaves exactly the first label match current. -/
theorem markCurrentFirst_filter (lbl : String) (l : List AcademicYear) (y0 : AcademicYear)
    (h : l.find? (fun y => y.label == lbl) = some y0) :
    (markCurrentFirst lbl l).filter (fun y => y.is_current)
      = [{ y0 with is_current := true }] := by
  induction l with
  | nil => cases h
  | cons z rest ih =>
    by_cases hz : z.label = lbl
    · rw [List.find?_cons_of_pos _ (by simp [hz])] at h
      have hy0 : y0 = z := (Option.some.inj h).symm
      subst hy0
      rw [markCurrentFirst, if_pos hz]
      simp [List.filter_cons, filter_current_allFalse]
    · rw [List.find?_cons_of_neg _ (by simp [hz])] at h
      rw [markCurrentFirst, if_neg hz]
      simpa [List.filter_cons] using ih h

theorem commitPromotion_missing_empty (nowYear : ℕ) (st : PromoState) (m a : ℕ) (lbl : String)
    (hout : (commitPromotion nowYear st).outcome = .committed m a lbl) :
    missing_year_groups st = [] := by
  by_contra hne
  simp only [commitPromotion] at hout
  rw [if_pos hne] at hout
  exact PromoOutcome.noConfusion hout

theorem classesByYear_of_missing_empty (st : PromoState) (yg : ℤ)
    (h : missing_year_groups st = []) (h1 : 1 ≤ yg) (h6 : yg ≤ 6) :
    ∃ c, classesByYear st yg = some c := by
  unfold missing_year_groups at h
  rw [List.filter_eq_nil_iff] at h
  have hm : yg ∈ (List.range 6).map (fun (i : ℕ) => (i : ℤ) + 1) := by
    simp only [List.mem_map, List.mem_range]
    exact ⟨(yg - 1).toNat, by omega, by omega⟩
  have hno := h yg hm
  rcases hv : classesByYear st yg with _ | c
  · exfalso
    apply hno
    rw [hv]
    rfl
  · exact ⟨c, rfl⟩

theorem next_year_label_of_parse (nowYear : ℕ) (lab : String) (s e : ℕ)
    (h : parseLabel (pyStrip lab) = some (s, e)) :
    next_year_label_from nowYear lab = fmtLabel (s + 1) (e + 1) := by
  simp only [next_year_label_from]
  rw [h]

theorem ensure_archive_snd_of_single (st : PromoState) (arc : SchoolClass)
    (h : st.classes.filter isArchiveLike = [arc]) :
    (ensure_single_archive_class st).2 = ⟨arc.id, "Archive", none, true, true⟩ := by
  unfold ensure_single_archive_class
  rw [h]
  rfl

theorem ensure_archive_snd_congr (st1 st : PromoState) (hc : st1.classes = st.classes)
    (hn : st1.nextClassId = st.nextClassId) :
    (ensure_single_archive_class st1).2 = (ensure_single_archive_class st).2 := by
  unfold ensure_single_archive_class
  rw [hc, hn]
  rcases h : (st.classes.filter isArchiveLike).head? with _ | c
  · rfl
  · rfl

/-- A committed promotion in full: the outcome label is the incremented
one, the final year table has a single current row carrying it, and the
final pupils come from a successful loop fold over the pre-state pupils. -/
theorem commitPromotion_committed_full (nowYear : ℕ) (st : PromoState) (m a : ℕ) (lbl : String)
    (hout : (commitPromotion nowYear st).outcome = .committed m a lbl) :
    lbl = next_year_label_from nowYear
        (match get_current_year st with | some y => y.label | none => "2025/26") ∧
    (∃ ycur, ((commitPromotion nowYear st).state.years.filter (fun y => y.is_current))
        = [ycur] ∧ ycur.label = lbl) ∧
    ∃ (nyid : ℕ) (accF : PromoAcc),
      st.pupils.foldlM (promoteStep (commitPromotion nowYear st).state.classes
        (classesByYear st) (ensure_single_archive_class st).2.id (get_current_year st) nyid)
        ([], st.history, 0, 0) = .ok accF ∧
      (commitPromotion nowYear st).state.pupils = accF.1 := by
  simp only [commitPromotion] at hout ⊢
  by_cases hmiss : missing_year_groups st ≠ []
  · rw [if_pos hmiss] at hout
    exact PromoOutcome.noConfusion hout
  · rw [if_neg hmiss] at hout ⊢
    set nl := next_year_label_from nowYear (match get_current_year st with
      | some y => y.label
      | none => "2025/26") with hnl
    rcases hfind : st.years.find? (fun y => y.label == nl) with _ | y0
    · rw [hfind] at hout ⊢
      simp only at hout ⊢
      simp only [ensure_archive_pupils, ensure_archive_history,
        ensure_archive_years] at hout ⊢
      split at hout
      · exact PromoOutcome.noConfusion hout
      case _ ps hist mv av heq =>
        simp only [PromoOutcome.committed.injEq] at hout
        obtain ⟨hm, ha, hlbl⟩ := hout
        refine ⟨hlbl.symm, ⟨⟨st.nextYearId, nl, true⟩, ?_, hlbl⟩, ?_⟩
        · rw [List.filter_append, filter_current_allFalse]
          rfl
        · have hcongr := ensure_archive_snd_congr
            { st with
                years := st.years.map (fun z => { z with is_current := false })
                  ++ [⟨st.nextYearId, nl, true⟩]
                nextYearId := st.nextYearId + 1 } st rfl rfl
          rw [hcongr] at heq
          exact ⟨_, _, heq, rfl⟩
    · rw [hfind] at hout ⊢
      simp only at hout ⊢
      simp only [ensure_archive_pupils, ensure_archive_history,
        ensure_archive_years] at hout ⊢
      split at hout
      · exact PromoOutcome.noConfusion hout
      case _ ps hist mv av heq =>
        simp only [PromoOutcome.committed.injEq] at hout
        obtain ⟨hm, ha, hlbl⟩ := hout
        have hy0 : y0.label = nl := by
          have hp0 := List.find?_some hfind
          simpa using hp0
        refine ⟨hlbl.symm, ⟨{ y0 with is_current := true }, ?_, by
          simpa using hy0.trans hlbl⟩, ?_⟩
        · exact markCurrentFirst_filter nl st.years y0 hfind
        · have hcongr := ensure_archive_snd_congr
            { st with years := markCurrentFirst nl st.years } st rfl rfl
          rw [hcongr] at heq
          exact ⟨_, _, heq, rfl⟩

/-! ### Claim C3 -/

/-- C3: with a live class for every year group and a committed run,
Year-6 pupils land in the unique Archive class, Year-1..5 pupils land in
the live class one year group up, and exactly one academic year is
current afterwards, labelled with both components incremented. -/
theorem C3_promotion_reassigns_and_advances_year (nowYear : ℕ) (st : PromoState)
    (cy : AcademicYear) (s e : ℕ) (arc : SchoolClass) (m a : ℕ) (lbl : String)
    (hout : (commitPromotion nowYear st).outcome = PromoOutcome.committed m a lbl)
    (hcy : get_current_year st = some cy)
    (hparse : parseLabel (pyStrip cy.label) = some (s, e))
    (harch : st.classes.filter isArchiveLike = [arc])
    (hnd : (st.pupils.map Pupil.id).Nodup) :
    (∀ p ∈ st.pupils, ∀ k : SchoolClass,
      classById (commitPromotion nowYear st).state.classes p.class_id = some k →
      k.year_group = some 6 →
      (⟨p.id, arc.id⟩ : Pupil) ∈ (commitPromotion nowYear st).state.pupils ∧
      ∀ p' ∈ (commitPromotion nowYear st).state.pupils, p'.id = p.id →
        p'.class_id = arc.id) ∧
    (∀ p ∈ st.pupils, ∀ k : SchoolClass, ∀ yg : ℤ,
      classById (commitPromotion nowYear st).state.classes p.class_id = some k →
      k.year_group = some yg → 1 ≤ yg → yg ≤ 5 →
      ∃ tgt : SchoolClass, classesByYear st (yg + 1) = some tgt ∧
        tgt ∈ st.classes ∧ liveClass tgt = true ∧ tgt.year_group = some (yg + 1) ∧
        (⟨p.id, tgt.id⟩ : Pupil) ∈ (commitPromotion nowYear st).state.pupils ∧
        ∀ p' ∈ (commitPromotion nowYear st).state.pupils, p'.id = p.id →
          p'.class_id = tgt.id) ∧
    (lbl = fmtLabel (s + 1) (e + 1) ∧
      ∃ ycur : AcademicYear,
        (commitPromotion nowYear st).state.years.filter (fun y => y.is_current) = [ycur] ∧
        ycur.label = fmtLabel (s + 1) (e + 1)) := by
  obtain ⟨hlbl, hyear, nyid, accF, hfold, hpup⟩ :=
    commitPromotion_committed_full nowYear st m a lbl hout
  have hlbl2 : lbl = fmtLabel (s + 1) (e + 1) := by
    rw [hlbl, hcy]
    exact next_year_label_of_parse nowYear cy.label s e hparse
  have haid : (ensure_single_archive_class st).2.id = arc.id := by
    rw [ensure_archive_snd_of_single st arc harch]
  have hpupF : (commitPromotion nowYear st).state.pupils
      = st.pupils.map (assignPupil (commitPromotion nowYear st).state.classes
          (classesByYear st) (ensure_single_archive_class st).2.id) := by
    rw [hpup, promoFold_pupils _ _ _ _ _ _ _ _ hfold]
    simp
  have hme := commitPromotion_missing_empty nowYear st m a lbl hout
  have huniq : ∀ p ∈ st.pupils, ∀ p' ∈ (commitPromotion nowYear st).state.pupils,
      p'.id = p.id → p' = assignPupil (commitPromotion nowYear st).state.classes
        (classesByYear st) (ensure_single_archive_class st).2.id p := by
    intro p hp p' hp' hid
    rw [hpupF] at hp'
    obtain ⟨q, hq, rfl⟩ := List.mem_map.mp hp'
    have hqp : q = p := List.inj_on_of_nodup_map hnd hq hp
      (by rw [assignPupil_id] at hid; exact hid)
    rw [hqp]
  refine ⟨?_, ?_, hlbl2, ?_⟩
  · intro p hp k hk hk6
    have hassign := assignPupil_six (commitPromotion nowYear st).state.classes
      (classesByYear st) (ensure_single_archive_class st).2.id p k hk hk6
    constructor
    · rw [hpupF, ← haid, ← hassign]
      exact List.mem_map_of_mem _ hp
    · intro p' hp' hid
      rw [huniq p hp p' hp' hid, hassign]
      exact haid
  · intro p hp k yg hk hkyg h1 h5
    obtain ⟨tgt, htgt⟩ := classesByYear_of_missing_empty st (yg + 1) hme
      (by omega) (by omega)
    obtain ⟨htm, htl, hty⟩ := classesByYear_mem st (yg + 1) tgt htgt
    have hassign := assignPupil_mid (commitPromotion nowYear st).state.classes
      (classesByYear st) (ensure_single_archive_class st).2.id p k yg tgt
      hk hkyg h1 h5 htgt
    refine ⟨tgt, htgt, htm, htl, hty, ?_, ?_⟩
    · rw [hpupF, ← hassign]
      exact List.mem_map_of_mem _ hp
    · intro p' hp' hid
      rw [huniq p hp p' hp' hid, hassign]
  · obtain ⟨ycur, hfil, hyclbl⟩ := hyear
    exact ⟨ycur, hfil, by rw [hyclbl, hlbl2]⟩

/-- A state with a full Year 1–6 class set, a Year-6 pupil and a Year-3
pupil. -/
def promoMixedState : PromoState :=
  ⟨[⟨1, "Y1", some 1, false, false⟩, ⟨2, "Y2", some 2, false, false⟩,
    ⟨3, "Y3", some 3, false, false⟩, ⟨4, "Y4", some 4, false, false⟩,
    ⟨5, "Y5", some 5, false, false⟩, ⟨6, "Y6", some 6, false, false⟩,
    ⟨7, "Archive", none, true, true⟩],
   [⟨100, 6⟩, ⟨200, 3⟩], [⟨1, "2025/26", true⟩], [], 8, 2⟩

/-- Witness for C3: the Year-6 pupil lands in the Archive class. -/
theorem C3_witness :
    (commitPromotion 2025 promoMixedState).outcome = PromoOutcome.committed 1 1 "2026/27" ∧
    get_current_year promoMixedState = some ⟨1, "2025/26", true⟩ ∧
    parseLabel (pyStrip "2025/26") = some (2025, 26) ∧
    promoMixedState.classes.filter isArchiveLike = [⟨7, "Archive", none, true, true⟩] ∧
    (promoMixedState.pupils.map Pupil.id).Nodup ∧
    (⟨100, 7⟩ : Pupil) ∈ (commitPromotion 2025 promoMixedState).state.pupils :=
  ⟨by decide, by decide, by decide, by decide, by decide,
   ((C3_promotion_reassigns_and_advances_year 2025 promoMixedState ⟨1, "2025/26", true⟩
       2025 26 ⟨7, "Archive", none, true, true⟩ 1 1 "2026/27"
       (by decide) (by decide) (by decide) (by decide) (by decide)).1
     ⟨100, 6⟩ (by decide) ⟨6, "Y6", some 6, false, false⟩ (by decide) (by decide)).1⟩
